import Mathlib

/-!
Verification of the libloadorder in-memory LoadOrder engine against its
natural-language specification.  The repository ships the class interface
(src/backend/LoadOrder.h) and its test suite (src/tests/backend/LoadOrderTest.h);
the member-function bodies of liblo::LoadOrder are not part of the sources, so
the operations below are modelled from the specification (section 3 "Data
model", section 4 "Component design" and section 8 "Testable properties"),
checked against the behaviours pinned down by the test suite.
-/

namespace LibLoadOrder

/-- Modelled from the spec: case folding used for all name comparisons
("ASCII-insensitive case folding...; non-ASCII bytes compare byte-exactly").
Char.toLower lowers exactly the ASCII uppercase range. -/
def fold (s : String) : String := ⟨s.data.map Char.toLower⟩

/-- Case-insensitive filename equality (spec: "Identity is case-insensitive
filename equality"). -/
def nameEq (a b : String) : Bool := fold a == fold b

/-- Game identifiers, from libloadorder/constants.h (LIBLO_GAME_TES3 ...). -/
inductive GameId
  | tes3 | tes4 | tes5 | fo3 | fnv | fo4
deriving DecidableEq

/-- Persistence methods of the spec data model:
method in {Timestamp, Textfile, Asterisk, Morrowind}. -/
inductive Method
  | timestamp | textfile | asterisk | morrowind
deriving DecidableEq

/-- True for the two methods with a privileged game-master slot
(spec I3: "persistence method is Textfile or Asterisk"). -/
def Method.isTextBased : Method → Bool
  | .textfile => true
  | .asterisk => true
  | _ => false

/-- Modelled from the spec: GameProfile, the read-only per-game descriptor
(GameSettings in the sources, whose definition is not under src/). -/
structure GameProfile where
  gameId : GameId
  method : Method
  gameMasterName : String
deriving DecidableEq

/-- Modelled from the spec: a Plugin entry of the OrderedSet — canonical
filename, active flag, cached is-master classification (Plugin.h is not under
src/; mtime is carried by the disk model instead). -/
structure Plugin where
  name : String
  active : Bool
  isMaster : Bool
deriving DecidableEq

/-- Modelled from the spec: what the PluginInfo provider answers about one
file of the plugins directory: exists (listed at all), well-formed, is-master,
modification time. -/
structure DiskFile where
  name : String
  valid : Bool
  isMaster : Bool
  mtime : Int
deriving DecidableEq

/-- Modelled from the spec: the filesystem state the persistence strategies
read and write — the plugins directory, the optional load-order file, the
active-plugins file (each line a filename, the flag marking a leading
asterisk), and the three modification times watched by the freshness
monitor. -/
structure Disk where
  files : List DiskFile
  loFile : Option (List String)
  apFile : Option (List (String × Bool))
  dirMtime : Int
  loFileMtime : Int
  apFileMtime : Int
deriving DecidableEq

/-- Modelled from the spec: the in-memory LoadOrder — the plugin sequence plus
the FreshnessSnapshot mtime high-water mark (fields loadOrder and mtime of
class LoadOrder in LoadOrder.h). -/
structure LoadOrder where
  mtime : Int
  plugins : List Plugin
deriving DecidableEq

/-- The empty in-memory state a fresh LoadOrder starts from (and the result of
clear(), spec: "Empties load order and resets FreshnessSnapshot to zero"). -/
def emptyLoadOrder : LoadOrder := { mtime := 0, plugins := [] }

/-- Error surface of the mutating operations (section 7 "Error handling
design"). -/
inductive LoError
  | invalidArgs | invalidPlugin | tooManyActive | orderingViolation
  | requiredActive | fileError
deriving DecidableEq

instance : DecidableEq (Except LoError LoadOrder) := fun x y =>
  match x, y with
  | .ok a, .ok b => decidable_of_iff (a = b) (by simp)
  | .error a, .error b => decidable_of_iff (a = b) (by simp)
  | .ok _, .error _ => isFalse (by simp)
  | .error _, .ok _ => isFalse (by simp)

/-- Spec I5: "At most 255 entries have active = true"
(LoadOrder::maxActivePlugins = 255 in LoadOrder.h). -/
def maxActive : Nat := 255

/-- First directory entry matching a name case-insensitively (the PluginInfo
provider lookup). -/
def lookupFile (files : List DiskFile) (n : String) : Option DiskFile :=
  files.find? (fun f => nameEq f.name n)

/-- PluginInfo validity check: the file exists and is well-formed. -/
def isValidPlugin (files : List DiskFile) (n : String) : Bool :=
  match lookupFile files n with
  | some f => f.valid
  | none => false

/-- PluginInfo is-master classification of a filename. -/
def isMasterFile (files : List DiskFile) (n : String) : Bool :=
  match lookupFile files n with
  | some f => f.isMaster
  | none => false

/-- Whether a well-formed file case-insensitively named Update.esm is in the
plugins directory (spec I7 premise: "if a file named Update.esm exists on
disk"). -/
def updateExists (files : List DiskFile) : Bool :=
  files.any (fun f => nameEq f.name "Update.esm" && f.valid)

/-- Membership of a name in the plugin sequence, case-insensitive. -/
def containsName (ps : List Plugin) (n : String) : Bool :=
  ps.any (fun p => nameEq p.name n)

/-- is_active(name): boolean, case-insensitive. -/
def isActiveIn (ps : List Plugin) (n : String) : Bool :=
  ps.any (fun p => nameEq p.name n && p.active)

/-- Number of active entries. -/
def countActive (ps : List Plugin) : Nat :=
  (ps.filter (fun p => p.active)).length

/-- One past the last leading master (spec: "master_partition_point"). -/
def masterPartitionPoint (ps : List Plugin) : Nat :=
  (ps.takeWhile (fun p => p.isMaster)).length

/-- Spec I2 as a predicate on a sequence of entries: all masters precede all
non-masters. -/
def partitionOk (ps : List Plugin) : Bool :=
  (ps.dropWhile (fun p => p.isMaster)).all (fun p => !p.isMaster)

/-- Spec rule 3 for set_load_order on raw names: no master appears after any
non-master, classifying via the PluginInfo provider. -/
def mastersBeforeNonMasters (files : List DiskFile) (seq : List String) : Bool :=
  (seq.dropWhile (fun n => isMasterFile files n)).all (fun n => !(isMasterFile files n))

/-- No two names share a case-insensitive fold (spec I1 / rule 2). -/
def distinctFold : List String → Bool
  | [] => true
  | n :: rest => !(rest.any (fun m => nameEq m n)) && distinctFold rest

/-- Position of a name, its index if present and the size sentinel otherwise
(spec: "Index in [0, size) if present, else size"). -/
def getPosition (ps : List Plugin) (n : String) : Nat :=
  match ps.findIdx? (fun p => nameEq p.name n) with
  | some i => i
  | none => ps.length

/-- Drop every entry matching a name case-insensitively. -/
def removeName (ps : List Plugin) (n : String) : List Plugin :=
  ps.filter (fun p => !(nameEq p.name n))

/-- Insert an entry at an index (the index is clamped by the callers). -/
def insertAt (ps : List Plugin) (i : Nat) (p : Plugin) : List Plugin :=
  ps.take i ++ p :: ps.drop i

/-- Set or clear the active flag of every entry matching a name. -/
def setFlag (ps : List Plugin) (n : String) (b : Bool) : List Plugin :=
  ps.map (fun p => if nameEq p.name n then { p with active := b } else p)

/-- Modelled from the spec: set_load_order(seq) of the missing LoadOrder.cpp.
Rejects atomically when a name fails the validity check, case-insensitive
duplicates exist, a master follows a non-master, or the method is
Textfile/Asterisk and the first entry is not the game master; on success the
new sequence replaces the old, retained plugins keep their prior active flag,
new plugins start inactive, and under Textfile/Asterisk the game master is
forcibly marked active. -/
def setLoadOrder (gs : GameProfile) (files : List DiskFile) (lo : LoadOrder)
    (seq : List String) : Except LoError LoadOrder :=
  if !(seq.all (fun n => isValidPlugin files n)) then .error .invalidPlugin
  else if !(distinctFold seq) then .error .invalidArgs
  else if !(mastersBeforeNonMasters files seq) then .error .orderingViolation
  else if gs.method.isTextBased &&
      !(match seq.head? with
        | some n => nameEq n gs.gameMasterName
        | none => true) then .error .orderingViolation
  else .ok { lo with
    plugins := seq.map (fun n =>
      { name := n
        active := isActiveIn lo.plugins n ||
          (gs.method.isTextBased && nameEq n gs.gameMasterName)
        isMaster := isMasterFile files n }) }

/-- Modelled from the spec: the entry set_position moves — the present entry
with its flags, a fresh inactive entry for a valid file, and none for an
invalid absent name. -/
def entryFor (files : List DiskFile) (ps : List Plugin) (n : String) :
    Option Plugin :=
  match ps.find? (fun p => nameEq p.name n) with
  | some p => some p
  | none =>
    if isValidPlugin files n then
      some { name := n, active := false, isMaster := isMasterFile files n }
    else none

/-- Modelled from the spec: set_position(name, i) of the missing
LoadOrder.cpp. The plugin is removed first, the target index is clamped to
the end, the active flag is preserved on a move; it rejects when the name is
neither present nor a valid file, when the result would violate the
master partition, or, under Textfile/Asterisk, when the game master would
leave index 0 or another plugin would occupy it. -/
def setPosition (gs : GameProfile) (files : List DiskFile) (lo : LoadOrder)
    (n : String) (i : Nat) : Except LoError LoadOrder :=
  match entryFor files lo.plugins n with
  | none => .error .invalidPlugin
  | some p =>
    let rest := removeName lo.plugins n
    let j := min i rest.length
    if gs.method.isTextBased && nameEq n gs.gameMasterName && j != 0 then
      .error .orderingViolation
    else if gs.method.isTextBased && !(nameEq n gs.gameMasterName) && j == 0 then
      .error .orderingViolation
    else if !(partitionOk (insertAt rest j p)) then .error .orderingViolation
    else .ok { lo with plugins := insertAt rest j p }

/-- Modelled from the spec: the placement rule shared by activate and
set_active_plugins for a plugin not yet in the load order — the game master
goes to index 0 under Textfile/Asterisk, other masters go to the master
partition point, non-masters are appended. -/
def insertPlugin (gs : GameProfile) (ps : List Plugin) (p : Plugin) : List Plugin :=
  if gs.method.isTextBased && nameEq p.name gs.gameMasterName then p :: ps
  else if p.isMaster then insertAt ps (masterPartitionPoint ps) p
  else ps ++ [p]

/-- Modelled from the spec: activate(name) of the missing LoadOrder.cpp.
Fails with InvalidPlugin for an absent invalid file and with TooManyActive
when 255 plugins are already active; otherwise marks the plugin active,
inserting it by the placement rules when absent. -/
def activate (gs : GameProfile) (files : List DiskFile) (lo : LoadOrder)
    (n : String) : Except LoError LoadOrder :=
  if containsName lo.plugins n then
    if isActiveIn lo.plugins n then .ok lo
    else if maxActive ≤ countActive lo.plugins then .error .tooManyActive
    else .ok { lo with plugins := setFlag lo.plugins n true }
  else
    if !(isValidPlugin files n) then .error .invalidPlugin
    else if maxActive ≤ countActive lo.plugins then .error .tooManyActive
    else
      let p : Plugin := { name := n, active := true, isMaster := isMasterFile files n }
      .ok { lo with plugins := insertPlugin gs lo.plugins p }

/-- Modelled from the spec: deactivate(name) of the missing LoadOrder.cpp.
Fails for the game master under Textfile/Asterisk and for Update.esm under
TES5; otherwise clears the flag if present and active, a no-op success
otherwise. -/
def deactivate (gs : GameProfile) (files : List DiskFile) (lo : LoadOrder)
    (n : String) : Except LoError LoadOrder :=
  if gs.method.isTextBased && nameEq n gs.gameMasterName then
    .error .requiredActive
  else if gs.gameId == GameId.tes5 && nameEq n "Update.esm" then
    .error .requiredActive
  else .ok { lo with plugins := setFlag lo.plugins n false }

/-- Modelled from the spec: set_active_plugins(set) of the missing
LoadOrder.cpp. Validates every name, the 255 cap, the game-master membership
under Textfile/Asterisk and the Update.esm membership for TES5 when the file
exists; on success exactly the given names end active, names not yet in the
load order being added by the placement rules. -/
def setActivePlugins (gs : GameProfile) (files : List DiskFile) (lo : LoadOrder)
    (names : List String) : Except LoError LoadOrder :=
  if !(names.all (fun n => isValidPlugin files n)) then .error .invalidPlugin
  else if maxActive < names.length then .error .tooManyActive
  else if gs.method.isTextBased &&
      !(names.any (fun n => nameEq n gs.gameMasterName)) then
    .error .requiredActive
  else if gs.gameId == GameId.tes5 && updateExists files &&
      !(names.any (fun n => nameEq n "Update.esm")) then
    .error .requiredActive
  else
    let marked := lo.plugins.map (fun p =>
      { p with active := names.any (fun n => nameEq n p.name) })
    let added := (names.filter (fun n => !(containsName lo.plugins n))).foldl
      (fun ps n =>
        insertPlugin gs ps { name := n, active := true, isMaster := isMasterFile files n })
      marked
    .ok { lo with plugins := added }

/-- The caller-visible state after a mutation: the new state on success, the
old state on failure (spec: "all mutation APIs surface the error to the
caller with the in-memory state guaranteed unchanged"). -/
def commit (r : Except LoError LoadOrder) (lo : LoadOrder) : LoadOrder :=
  match r with
  | .ok lo2 => lo2
  | .error _ => lo

/-- Whether a mutation failed. -/
def isError (r : Except LoError LoadOrder) : Bool :=
  match r with
  | .ok _ => false
  | .error _ => true

/-! Persistence strategies.  Load rebuilds the in-memory state from the disk
model, sharing the spec's repair policy: unknown, invalid or missing files are
silently dropped, the active cap is applied by truncation in file order, and
the plugin directory is always scanned for files the persisted state omits. -/

/-- Keep the first entry of each case-insensitive name, dropping later
duplicates (repair policy for persisted lists). -/
def dedupeFold : List String → List String
  | [] => []
  | n :: rest => n :: (dedupeFold rest).filter (fun m => !(nameEq m n))

/-- Turn admitted names into inactive entries classified by the PluginInfo
provider. -/
def mkPlugins (files : List DiskFile) (ns : List String) : List Plugin :=
  ns.map (fun n => { name := n, active := false, isMaster := isMasterFile files n })

/-- Stable partition restoring I2 on load: masters first, both blocks keeping
their relative order. -/
def partitionMasters (ps : List Plugin) : List Plugin :=
  ps.filter (fun p => p.isMaster) ++ ps.filter (fun p => !p.isMaster)

/-- Move the first entry matching a name to the head, used for the
game-master slot of Textfile/Asterisk loads. -/
def moveToFront (ps : List Plugin) (n : String) : List Plugin :=
  match ps.find? (fun p => nameEq p.name n) with
  | some p => p :: ps.filter (fun q => !(nameEq q.name n))
  | none => ps

/-- Directory walk of the load strategies: admit every well-formed file the
persisted state omitted, masters at the master partition point, non-masters
appended. -/
def dirScan (ps : List Plugin) : List DiskFile → List Plugin
  | [] => ps
  | f :: fs =>
    if f.valid && !(containsName ps f.name) then
      dirScan (insertAt ps (if f.isMaster then masterPartitionPoint ps else ps.length)
        { name := f.name, active := false, isMaster := f.isMaster }) fs
    else dirScan ps fs

/-- Sort key for the Timestamp strategy: modification time, ties broken by
case-insensitive filename; the remaining components never differ between
distinct directory entries of a well-formed disk and only make the key
injective. -/
def fileKey (f : DiskFile) : Lex (Int × Lex (String × Lex (String × Lex (Bool × Bool)))) :=
  toLex (f.mtime, toLex (fold f.name, toLex (f.name, toLex (f.valid, f.isMaster))))

/-- Timestamp ordering relation on directory entries. -/
def fileOrd (a b : DiskFile) : Prop := fileKey a ≤ fileKey b

/-- Boolean form of the timestamp ordering. -/
def fileOrdB (a b : DiskFile) : Bool :=
  if a.mtime = b.mtime then
    if fold a.name = fold b.name then
      if a.name = b.name then
        if a.valid = b.valid then a.isMaster ≤ b.isMaster
        else a.valid ≤ b.valid
      else a.name ≤ b.name
    else fold a.name ≤ fold b.name
  else a.mtime ≤ b.mtime

instance : DecidableRel fileOrd :=
  fun a b => inferInstanceAs (Decidable (fileKey a ≤ fileKey b))

instance : IsTotal DiskFile fileOrd :=
  ⟨fun a b => le_total (fileKey a) (fileKey b)⟩

instance : IsTrans DiskFile fileOrd :=
  ⟨fun _ _ _ h1 h2 => le_trans h1 h2⟩

instance : IsAntisymm DiskFile fileOrd :=
  ⟨fun a b h1 h2 => by
    have h : fileKey a = fileKey b := le_antisymm h1 h2
    unfold fileKey at h
    have h1b := toLex_inj.mp h
    rw [Prod.mk.injEq] at h1b
    obtain ⟨hm, h2b⟩ := h1b
    have h2c := toLex_inj.mp h2b
    rw [Prod.mk.injEq] at h2c
    obtain ⟨_, h3b⟩ := h2c
    have h3c := toLex_inj.mp h3b
    rw [Prod.mk.injEq] at h3c
    obtain ⟨hn, h4b⟩ := h3c
    have h4c := toLex_inj.mp h4b
    rw [Prod.mk.injEq] at h4c
    obtain ⟨hv, hmas⟩ := h4c
    cases a
    cases b
    simp_all⟩

/-- The well-formed files of the directory. -/
def validFiles (d : Disk) : List DiskFile :=
  d.files.filter (fun f => f.valid)

/-- A load-order file line the Textfile reader skips: it begins with the
comment character. -/
def isCommentLine (l : String) : Bool := l.data.head? == some (Char.ofNat 35)

/-- Modelled from the spec: the ordering seed each strategy reads before the
directory walk — ascending timestamps for Timestamp/Morrowind, the load-order
file (falling back to the active-plugins file) for Textfile with '#' comment
lines skipped, and the game master followed by the active-plugins file lines
for Asterisk. -/
def seedNames (gs : GameProfile) (d : Disk) : List String :=
  match gs.method with
  | .timestamp | .morrowind =>
    ((validFiles d).insertionSort fileOrd).map (fun f => f.name)
  | .textfile =>
    match d.loFile with
    | some lines => lines.filter (fun l => !(isCommentLine l))
    | none =>
      match d.apFile with
      | some lines => lines.map (fun x => x.1)
      | none => []
  | .asterisk =>
    gs.gameMasterName ::
      (match d.apFile with
       | some lines => lines.map (fun x => x.1)
       | none => [])

/-- Modelled from the spec: the in-memory ordering a load produces from a
seed — invalid names dropped, case-insensitive duplicates dropped, the master
partition restored, the game master moved to index 0 under Textfile/Asterisk,
then the directory walk. -/
def buildOrder (gs : GameProfile) (files : List DiskFile) (seed : List String) :
    List Plugin :=
  let admitted := dedupeFold (seed.filter (fun n => isValidPlugin files n))
  let ps0 := partitionMasters (mkPlugins files admitted)
  let ps1 := if gs.method.isTextBased then moveToFront ps0 gs.gameMasterName else ps0
  dirScan ps1 files

/-- Names the active-plugins file marks active: every line for the listing
methods, the asterisked lines for Asterisk. -/
def fileActiveNames (gs : GameProfile) (d : Disk) : List String :=
  match d.apFile with
  | none => []
  | some lines =>
    match gs.method with
    | .asterisk => (lines.filter (fun x => x.2)).map (fun x => x.1)
    | _ => lines.map (fun x => x.1)

/-- Names load forces active: the game master under Textfile/Asterisk and
Update.esm for TES5 when it exists on disk. -/
def forcedActive (gs : GameProfile) (files : List DiskFile) : List String :=
  (if gs.method.isTextBased then [gs.gameMasterName] else []) ++
    (if gs.gameId == GameId.tes5 && updateExists files then ["Update.esm"] else [])

/-- Modelled from the spec: the active names a load ends up with — forced
names then the file's own order, unknown entries dropped, deduplicated, and
truncated at the 255 cap. -/
def loadActiveNames (gs : GameProfile) (d : Disk) (ps : List Plugin) : List String :=
  (dedupeFold ((forcedActive gs d.files ++ fileActiveNames gs d).filter
    (fun n => containsName ps n))).take maxActive

/-- Mark exactly the listed names active. -/
def markActive (ps : List Plugin) (ns : List String) : List Plugin :=
  ps.map (fun p => { p with active := ns.any (fun n => nameEq n p.name) })

/-- Modelled from the spec: the full state a load() rebuilds from disk when
the freshness monitor reports a change. -/
def loadFresh (gs : GameProfile) (d : Disk) : List Plugin :=
  let ps := buildOrder gs d.files (seedNames gs d)
  markActive ps (loadActiveNames gs d ps)

/-- Modelled from the spec: the mtime high-water mark across the plugins
directory, the load-order file (Textfile only) and the active-plugins file. -/
def snapshotOf (gs : GameProfile) (d : Disk) : Int :=
  if gs.method == Method.textfile then
    max d.dirMtime (max d.loFileMtime d.apFileMtime)
  else max d.dirMtime d.apFileMtime

/-- Modelled from the spec: has_filesystem_changed() — true when the
high-water mark differs from the stored snapshot, in either direction. -/
def hasFilesystemChanged (gs : GameProfile) (d : Disk) (lo : LoadOrder) : Bool :=
  snapshotOf gs d != lo.mtime

/-- Modelled from the spec: load() — reload unconditionally when stale, keep
the in-memory state otherwise. -/
def load (gs : GameProfile) (d : Disk) (lo : LoadOrder) : LoadOrder :=
  if hasFilesystemChanged gs d lo then
    { mtime := snapshotOf gs d, plugins := loadFresh gs d }
  else lo

/-- Index of the first case-insensitive match in a name list, 0 otherwise
(total helper for timestamp assignment). -/
def idxFold (names : List String) (n : String) : Nat :=
  match names.findIdx? (fun m => nameEq m n) with
  | some i => i
  | none => 0

/-- Modelled from the spec: the Timestamp save — every plugin of the load
order receives a strictly increasing modification time following the load
order sequence (2 seconds apart per the design notes); other files keep
theirs. -/
def assignTimestamps (files : List DiskFile) (names : List String) : List DiskFile :=
  files.map (fun f =>
    if names.any (fun n => nameEq n f.name) then
      { f with mtime := 2 * (idxFold names f.name : Int) }
    else f)

/-- Names of the in-memory sequence. -/
def namesOf (ps : List Plugin) : List String := ps.map (fun p => p.name)

/-- Names of the active entries, in load-order sequence. -/
def activeNamesOf (ps : List Plugin) : List String :=
  (ps.filter (fun p => p.active)).map (fun p => p.name)

/-- Modelled from the spec: save() — Timestamp/Morrowind write timestamps and
the active-plugins file, Textfile writes both metadata files, Asterisk writes
every plugin except the game master to the active-plugins file with
asterisked active lines; the freshness snapshot is updated to the post-write
mtimes. -/
def save (gs : GameProfile) (d : Disk) (lo : LoadOrder) : Disk × LoadOrder :=
  let d2 : Disk :=
    match gs.method with
    | .timestamp | .morrowind =>
      { d with
        files := assignTimestamps d.files (namesOf lo.plugins)
        apFile := some ((activeNamesOf lo.plugins).map (fun n => (n, true)))
        dirMtime := d.dirMtime + 1
        apFileMtime := d.apFileMtime + 1 }
    | .textfile =>
      { d with
        loFile := some (namesOf lo.plugins)
        apFile := some ((activeNamesOf lo.plugins).map (fun n => (n, true)))
        loFileMtime := d.loFileMtime + 1
        apFileMtime := d.apFileMtime + 1 }
    | .asterisk =>
      { d with
        apFile := some ((lo.plugins.filter
          (fun p => !(nameEq p.name gs.gameMasterName))).map
            (fun p => (p.name, p.active)))
        apFileMtime := d.apFileMtime + 1 }
  (d2, { lo with mtime := snapshotOf gs d2 })

/-- The observable (filename, active flag) sequence of an in-memory state
(spec round-trip property: "equal (as a sequence of (name, active) pairs)"). -/
def pairsOf (ps : List Plugin) : List (String × Bool) :=
  ps.map (fun p => (p.name, p.active))

/-- The disk state a Timestamp/Morrowind save leaves behind (the matching
branch of save). -/
def tsDisk (d : Disk) (lo : LoadOrder) : Disk :=
  { d with
    files := assignTimestamps d.files (namesOf lo.plugins)
    apFile := some ((activeNamesOf lo.plugins).map (fun n => (n, true)))
    dirMtime := d.dirMtime + 1
    apFileMtime := d.apFileMtime + 1 }

/-- The disk state a Textfile save leaves behind (the matching branch of
save). -/
def tfDisk (d : Disk) (lo : LoadOrder) : Disk :=
  { d with
    loFile := some (namesOf lo.plugins)
    apFile := some ((activeNamesOf lo.plugins).map (fun n => (n, true)))
    loFileMtime := d.loFileMtime + 1
    apFileMtime := d.apFileMtime + 1 }

/-- The disk state an Asterisk save leaves behind (the matching branch of
save). -/
def astDisk (gm : String) (d : Disk) (lo : LoadOrder) : Disk :=
  { d with
    apFile := some ((lo.plugins.filter
      (fun p => !(nameEq p.name gm))).map (fun p => (p.name, p.active)))
    apFileMtime := d.apFileMtime + 1 }

/-! A small concrete game universe used to instantiate the theorems:
a game master, one further master, one non-master, Update.esm, and an
ill-formed file. -/

def gmName : String := "Game.esm"

def tfProfile : GameProfile := ⟨GameId.tes5, Method.textfile, gmName⟩

def tsProfile : GameProfile := ⟨GameId.tes4, Method.timestamp, gmName⟩

def astProfile : GameProfile := ⟨GameId.fo4, Method.asterisk, gmName⟩

def demoFiles : List DiskFile :=
  [⟨"B.esp", true, false, 1⟩, ⟨"Game.esm", true, true, 5⟩,
   ⟨"Bad.esp", false, false, 0⟩, ⟨"A.esm", true, true, 3⟩,
   ⟨"Update.esm", true, true, 9⟩]

def demoDisk : Disk :=
  { files := demoFiles
    loFile := some ["Game.esm", "A.esm", "B.esp"]
    apFile := some [("A.esm", false)]
    dirMtime := 1
    loFileMtime := 2
    apFileMtime := 3 }

/-- A saved in-memory state used to witness the round trip: the four valid
demo files, masters first, game master leading and active, Update.esm
active. -/
def c1lo : LoadOrder :=
  { mtime := 0
    plugins := [⟨"Game.esm", true, true⟩, ⟨"A.esm", true, true⟩,
      ⟨"Update.esm", true, true⟩, ⟨"B.esp", false, false⟩] }

/-- The saved sequence with flags cleared, as the order-rebuilding stages see
it before activation marks are applied. -/
def stripActive (ps : List Plugin) : List Plugin :=
  ps.map (fun p => { p with active := false })

lemma nameEq_iff {a b : String} : nameEq a b = true ↔ fold a = fold b := by
  simp [nameEq]

lemma nameEq_refl (a : String) : nameEq a a = true := by
  simp [nameEq]

lemma nameEq_symm {a b : String} : nameEq a b = nameEq b a := by
  by_cases h : fold a = fold b <;> simp [nameEq, h] <;> exact fun hc => h hc.symm

lemma nameEq_trans {a b c : String} (h1 : nameEq a b = true)
    (h2 : nameEq b c = true) : nameEq a c = true := by
  rw [nameEq_iff] at h1 h2 ⊢
  exact h1.trans h2

lemma nameEq_congr {a b : String} (h : nameEq a b = true) (c : String) :
    nameEq a c = nameEq b c := by
  rw [nameEq_iff] at h
  simp [nameEq, h]

lemma containsName_congr {m n : String} (ps : List Plugin)
    (h : nameEq m n = true) : containsName ps m = containsName ps n := by
  unfold containsName
  congr 1
  funext p
  rw [nameEq_symm, nameEq_congr h p.name, nameEq_symm]

lemma lookupFile_congr {m n : String} (files : List DiskFile)
    (h : nameEq m n = true) : lookupFile files m = lookupFile files n := by
  unfold lookupFile
  congr 1
  funext f
  rw [nameEq_symm (b := m), nameEq_congr h f.name, nameEq_symm]

lemma isValidPlugin_congr {m n : String} (files : List DiskFile)
    (h : nameEq m n = true) : isValidPlugin files m = isValidPlugin files n := by
  unfold isValidPlugin
  rw [lookupFile_congr files h]

lemma isMasterFile_congr {m n : String} (files : List DiskFile)
    (h : nameEq m n = true) : isMasterFile files m = isMasterFile files n := by
  unfold isMasterFile
  rw [lookupFile_congr files h]

lemma containsName_iff {ps : List Plugin} {n : String} :
    containsName ps n = true ↔ ∃ p ∈ ps, nameEq p.name n = true := by
  simp [containsName]

lemma isActiveIn_iff {ps : List Plugin} {n : String} :
    isActiveIn ps n = true ↔ ∃ p ∈ ps, nameEq p.name n = true ∧ p.active = true := by
  simp [isActiveIn]

lemma distinctFold_iff {l : List String} :
    distinctFold l = true ↔ (l.map fold).Nodup := by
  induction l with
  | nil => simp [distinctFold]
  | cons n rest ih =>
    simp only [distinctFold, Bool.and_eq_true, Bool.not_eq_true', List.any_eq_false,
      List.map_cons, List.nodup_cons, List.mem_map, ih]
    constructor
    · rintro ⟨h1, h2⟩
      refine ⟨?_, h2⟩
      rintro ⟨m, hm, he⟩
      have := h1 m hm
      rw [nameEq_iff] at this
      exact absurd he this
    · rintro ⟨h1, h2⟩
      refine ⟨?_, h2⟩
      intro m hm
      intro hc
      rw [nameEq_iff] at hc
      exact h1 ⟨m, hm, hc⟩

/-! Lemmas about the flag-setting and counting helpers. -/

lemma namesOf_setFlag (ps : List Plugin) (n : String) (b : Bool) :
    namesOf (setFlag ps n b) = namesOf ps := by
  induction ps with
  | nil => rfl
  | cons p rest ih =>
    simp only [setFlag, List.map_cons, namesOf] at ih ⊢
    by_cases h : nameEq p.name n = true <;> simp [h, ih]

lemma setFlag_not_contains {ps : List Plugin} {n : String}
    (h : containsName ps n = false) (b : Bool) : setFlag ps n b = ps := by
  induction ps with
  | nil => rfl
  | cons p rest ih =>
    simp only [containsName, List.any_cons, Bool.or_eq_false_iff] at h
    have hr : setFlag rest n b = rest := ih (by simpa [containsName] using h.2)
    simp only [setFlag, List.map_cons] at hr ⊢
    simp [h.1, hr]

lemma isActiveIn_setFlag_true (ps : List Plugin) (n : String) :
    isActiveIn (setFlag ps n true) n = containsName ps n := by
  induction ps with
  | nil => rfl
  | cons p rest ih =>
    by_cases h : nameEq p.name n = true
    · simp [setFlag, isActiveIn, containsName, h]
    · simp only [setFlag, isActiveIn, containsName, List.map_cons, List.any_cons] at ih ⊢
      simp [h, ih]

lemma isActiveIn_setFlag_other {ps : List Plugin} {m n : String} {b : Bool}
    (h : nameEq m n = false) : isActiveIn (setFlag ps n b) m = isActiveIn ps m := by
  induction ps with
  | nil => rfl
  | cons p rest ih =>
    simp only [setFlag, List.map_cons, isActiveIn, List.any_cons] at ih ⊢
    by_cases hp : nameEq p.name n = true
    · have hm : nameEq p.name m = false := by
        rw [Bool.eq_false_iff]
        intro hc
        have h2 : nameEq m p.name = true := by
          rw [nameEq_symm]
          exact hc
        have h3 := nameEq_trans h2 hp
        simp [h3] at h
      simp [hp, hm, ih]
    · simp [hp, ih]

lemma countActive_eq_length_activeNames (ps : List Plugin) :
    countActive ps = (activeNamesOf ps).length := by
  simp [countActive, activeNamesOf]

lemma insertAt_perm (ps : List Plugin) (i : Nat) (p : Plugin) :
    (insertAt ps i p).Perm (p :: ps) := by
  unfold insertAt
  calc (ps.take i ++ p :: ps.drop i).Perm (p :: (ps.take i ++ ps.drop i)) :=
        List.perm_middle
  _ = (p :: ps) := by rw [List.take_append_drop]

lemma distinctFold_cons_iff {x : String} {l : List String} :
    distinctFold (x :: l) = true ↔
      (∀ m ∈ l, nameEq m x = false) ∧ distinctFold l = true := by
  simp only [distinctFold, Bool.and_eq_true, Bool.not_eq_true', List.any_eq_false,
    Bool.not_eq_true]

lemma partitionOk_cons_master {p : Plugin} (ps : List Plugin)
    (h : p.isMaster = true) : partitionOk (p :: ps) = partitionOk ps := by
  simp [partitionOk, List.dropWhile_cons, h]

lemma partitionOk_cons_nonmaster {p : Plugin} (ps : List Plugin)
    (h : p.isMaster = false) :
    partitionOk (p :: ps) = ps.all (fun q => !q.isMaster) := by
  simp [partitionOk, List.dropWhile_cons, h]

lemma allNonMaster_of_partitionOk_cons_nonmaster {p : Plugin} {ps : List Plugin}
    (h : partitionOk (p :: ps) = true) (hp : p.isMaster = false) :
    ps.all (fun q => !q.isMaster) = true := by
  rw [partitionOk_cons_nonmaster ps hp] at h
  exact h

lemma partitionMasters_eq_self {ps : List Plugin}
    (h : partitionOk ps = true) : partitionMasters ps = ps := by
  induction ps with
  | nil => rfl
  | cons p rest ih =>
    by_cases hp : p.isMaster = true
    · rw [partitionOk_cons_master rest hp] at h
      simp only [partitionMasters, List.filter_cons, hp] at ih ⊢
      simp only [Bool.not_true, List.cons_append]
      have := ih h
      simp only [partitionMasters] at this
      simp [this]
    · rw [Bool.not_eq_true] at hp
      have hall := allNonMaster_of_partitionOk_cons_nonmaster h hp
      have h1 : rest.filter (fun q => q.isMaster) = [] := by
        rw [List.filter_eq_nil_iff]
        intro q hq
        have := (List.all_eq_true.mp hall) q hq
        simpa using this
      have h2 : rest.filter (fun q => !q.isMaster) = rest := by
        rw [List.filter_eq_self]
        intro q hq
        exact (List.all_eq_true.mp hall) q hq
      simp [partitionMasters, List.filter_cons, hp, h1, h2]

lemma insertAt_masterPartitionPoint (ps : List Plugin) (p : Plugin) :
    insertAt ps (masterPartitionPoint ps) p =
      ps.takeWhile (fun q => q.isMaster) ++ p :: ps.dropWhile (fun q => q.isMaster) := by
  induction ps with
  | nil => rfl
  | cons q rest ih =>
    by_cases hq : q.isMaster = true
    · have hmpp : masterPartitionPoint (q :: rest) = masterPartitionPoint rest + 1 := by
        simp [masterPartitionPoint, List.takeWhile_cons, hq]
      rw [hmpp]
      simp only [insertAt, List.take_succ_cons, List.drop_succ_cons, List.cons_append,
        List.takeWhile_cons, List.dropWhile_cons, hq, if_pos rfl, reduceIte]
      simp only [insertAt] at ih
      exact congrArg (q :: ·) ih
    · rw [Bool.not_eq_true] at hq
      simp [masterPartitionPoint, List.takeWhile_cons, List.dropWhile_cons, hq, insertAt]

lemma dropWhile_master_append {front rest : List Plugin}
    (h : front.all (fun q => q.isMaster) = true) :
    (front ++ rest).dropWhile (fun q => q.isMaster) =
      rest.dropWhile (fun q => q.isMaster) := by
  induction front with
  | nil => rfl
  | cons q fr ih =>
    simp only [List.all_cons, Bool.and_eq_true] at h
    simp [List.dropWhile_cons, h.1, ih h.2]

lemma all_takeWhile_master (ps : List Plugin) :
    (ps.takeWhile (fun q => q.isMaster)).all (fun q => q.isMaster) = true := by
  induction ps with
  | nil => rfl
  | cons q rest ih =>
    by_cases hq : q.isMaster = true <;> simp [List.takeWhile_cons, hq, ih]

lemma partitionOk_insert_master {ps : List Plugin} {p : Plugin}
    (h : partitionOk ps = true) (hp : p.isMaster = true) :
    partitionOk (insertAt ps (masterPartitionPoint ps) p) = true := by
  rw [insertAt_masterPartitionPoint]
  unfold partitionOk
  rw [dropWhile_master_append (all_takeWhile_master ps), List.dropWhile_cons]
  simp only [hp, if_pos rfl]
  have : (ps.dropWhile (fun q => q.isMaster)).dropWhile (fun q => q.isMaster) =
      ps.dropWhile (fun q => q.isMaster) := by
    cases hd : ps.dropWhile (fun q => q.isMaster) with
    | nil => rfl
    | cons r rs =>
      have hr : r.isMaster = false := by
        have := List.head_dropWhile_not (fun q => q.isMaster) (l := ps)
        rw [hd] at this
        simpa using this (by simp)
      simp [List.dropWhile_cons, hr]
  rw [this]
  exact h

lemma partitionOk_append_nonmaster {ps : List Plugin} {p : Plugin}
    (h : partitionOk ps = true) (hp : p.isMaster = false) :
    partitionOk (ps ++ [p]) = true := by
  induction ps with
  | nil => simp [partitionOk, List.dropWhile_cons, hp]
  | cons q rest ih =>
    by_cases hq : q.isMaster = true
    · rw [partitionOk_cons_master rest hq] at h
      rw [List.cons_append, partitionOk_cons_master _ hq]
      exact ih h
    · rw [Bool.not_eq_true] at hq
      have hall := allNonMaster_of_partitionOk_cons_nonmaster h hq
      rw [List.cons_append, partitionOk_cons_nonmaster _ hq]
      simp only [List.all_append, Bool.and_eq_true]
      exact ⟨hall, by simp [hp]⟩

lemma dropWhile_map_master (g : Plugin → Plugin)
    (hg : ∀ p, (g p).isMaster = p.isMaster) (ps : List Plugin) :
    (ps.map g).dropWhile (fun q => q.isMaster) =
      (ps.dropWhile (fun q => q.isMaster)).map g := by
  induction ps with
  | nil => rfl
  | cons p rest ih =>
    by_cases hp : p.isMaster = true <;>
      simp [List.dropWhile_cons, hg, hp, ih]

lemma partitionOk_map (g : Plugin → Plugin)
    (hg : ∀ p, (g p).isMaster = p.isMaster) (ps : List Plugin) :
    partitionOk (ps.map g) = partitionOk ps := by
  unfold partitionOk
  rw [dropWhile_map_master g hg, List.all_map]
  congr 1
  funext q
  simp [hg]

/-- The key counting device: a list of names with pairwise distinct folds
embeds fold-wise into any list containing a fold match for each entry, so it
is no longer. -/
lemma length_le_of_fold_embed {l1 l2 : List String}
    (hnd : (l1.map fold).Nodup) (hsub : ∀ a ∈ l1, ∃ b ∈ l2, fold a = fold b) :
    l1.length ≤ l2.length := by
  calc l1.length = (l1.map fold).length := (List.length_map _ _).symm
  _ = (l1.map fold).toFinset.card := (List.toFinset_card_of_nodup hnd).symm
  _ ≤ (l2.map fold).toFinset.card := by
      apply Finset.card_le_card
      intro x hx
      simp only [List.mem_toFinset, List.mem_map] at hx ⊢
      obtain ⟨a, ha, rfl⟩ := hx
      obtain ⟨b, hb, he⟩ := hsub a ha
      exact ⟨b, hb, he.symm⟩
  _ ≤ (l2.map fold).length := List.toFinset_card_le _
  _ = l2.length := List.length_map _ _

lemma commit_eq_of_isError {r : Except LoError LoadOrder} {lo : LoadOrder}
    (h : isError r = true) : commit r lo = lo := by
  cases r with
  | ok _ => simp [isError] at h
  | error _ => rfl

/-! The claims. -/

/-- C9: a second load() re-reads the on-disk state whenever the watched
modification-time high-water mark differs from the stored snapshot in either
direction — a strictly older mtime triggers the rebuild exactly as a newer
one does. -/
theorem c9_reload_on_any_mtime_change (gs : GameProfile) (d : Disk)
    (lo : LoadOrder)
    (h : snapshotOf gs d < lo.mtime ∨ lo.mtime < snapshotOf gs d) :
    hasFilesystemChanged gs d lo = true ∧
      load gs d lo = { mtime := snapshotOf gs d, plugins := loadFresh gs d } := by
  have hne : snapshotOf gs d ≠ lo.mtime := by
    rcases h with h | h
    · exact ne_of_lt h
    · exact (ne_of_lt h).symm
  refine ⟨by simp [hasFilesystemChanged, hne], ?_⟩
  simp [load, hasFilesystemChanged, hne]

/-- Witness for C9 at a concrete input whose stored snapshot is strictly newer
than the filesystem (mtime 10 against a high-water mark of 3). -/
theorem c9_reload_on_any_mtime_change_witness :
    hasFilesystemChanged tsProfile demoDisk { mtime := 10, plugins := [] } = true ∧
      load tsProfile demoDisk { mtime := 10, plugins := [] } =
        { mtime := snapshotOf tsProfile demoDisk
          plugins := loadFresh tsProfile demoDisk } :=
  c9_reload_on_any_mtime_change tsProfile demoDisk { mtime := 10, plugins := [] }
    (Or.inl (by decide))

/-- C3: every failing mutation leaves the caller-visible in-memory state
exactly as it was before the call — mutations are modelled as
validate-then-commit, the prior state being kept verbatim on any error. -/
theorem c3_failed_mutations_change_nothing (gs : GameProfile)
    (files : List DiskFile) (lo : LoadOrder) (seq names : List String)
    (n1 n2 n3 : String) (i : Nat)
    (h1 : isError (setLoadOrder gs files lo seq) = true)
    (h2 : isError (setPosition gs files lo n1 i) = true)
    (h3 : isError (setActivePlugins gs files lo names) = true)
    (h4 : isError (activate gs files lo n2) = true)
    (h5 : isError (deactivate gs files lo n3) = true) :
    commit (setLoadOrder gs files lo seq) lo = lo ∧
      commit (setPosition gs files lo n1 i) lo = lo ∧
      commit (setActivePlugins gs files lo names) lo = lo ∧
      commit (activate gs files lo n2) lo = lo ∧
      commit (deactivate gs files lo n3) lo = lo :=
  ⟨commit_eq_of_isError h1, commit_eq_of_isError h2, commit_eq_of_isError h3,
    commit_eq_of_isError h4, commit_eq_of_isError h5⟩

/-- Witness for C3: five concrete failing calls (a missing plugin for the
first four, the game master under Textfile for deactivate) leave the empty
state untouched. -/
theorem c3_failed_mutations_change_nothing_witness :
    commit (setLoadOrder tfProfile demoFiles emptyLoadOrder ["Missing.esp"])
        emptyLoadOrder = emptyLoadOrder ∧
      commit (setPosition tfProfile demoFiles emptyLoadOrder "Missing.esp" 0)
        emptyLoadOrder = emptyLoadOrder ∧
      commit (setActivePlugins tfProfile demoFiles emptyLoadOrder ["Missing.esp"])
        emptyLoadOrder = emptyLoadOrder ∧
      commit (activate tfProfile demoFiles emptyLoadOrder "Missing.esp")
        emptyLoadOrder = emptyLoadOrder ∧
      commit (deactivate tfProfile demoFiles emptyLoadOrder "Game.esm")
        emptyLoadOrder = emptyLoadOrder :=
  c3_failed_mutations_change_nothing tfProfile demoFiles emptyLoadOrder
    ["Missing.esp"] ["Missing.esp"] "Missing.esp" "Missing.esp" "Game.esm" 0
    (by decide) (by decide) (by decide) (by decide) (by decide)

/-- C2 counterexample: under a Textfile game, set_load_order of the single
new name Game.esm succeeds but the game master comes out ACTIVE, refuting
"new plugins start inactive" — the model (like the spec's own set_load_order
rules and the test settingLoadOrderShouldActivateTheGameMasterForTextfile...)
forcibly activates the game master. -/
theorem c2_counterexample :
    setLoadOrder tfProfile demoFiles emptyLoadOrder ["Game.esm"] =
        .ok { mtime := 0
              plugins := [{ name := "Game.esm", active := true, isMaster := true }] } ∧
      isActiveIn emptyLoadOrder.plugins "Game.esm" = false := by
  decide

/-- C2 as amended: a successful set_load_order replaces the sequence exactly,
and every plugin's flag is its prior flag (case-insensitive), except that
under Textfile/Asterisk the game master is forcibly active; in particular
retained plugins keep their flag and other new plugins start inactive. -/
theorem c2_set_load_order_replaces (gs : GameProfile) (files : List DiskFile)
    (lo : LoadOrder) (seq : List String) (lo2 : LoadOrder)
    (h : setLoadOrder gs files lo seq = .ok lo2) :
    namesOf lo2.plugins = seq ∧
      ∀ p ∈ lo2.plugins,
        p.active = (isActiveIn lo.plugins p.name ||
          (gs.method.isTextBased && nameEq p.name gs.gameMasterName)) := by
  unfold setLoadOrder at h
  split_ifs at h
  rw [Except.ok.injEq] at h
  subst h
  constructor
  · simp only [namesOf, List.map_map]
    exact List.map_id seq
  · intro p hp
    simp only [List.mem_map] at hp
    obtain ⟨n, _, rfl⟩ := hp
    rfl

/-- Witness for C2 as amended: a Timestamp game keeps the retained active
A.esm active and leaves the new B.esp inactive across a reorder. -/
theorem c2_set_load_order_replaces_witness :
    namesOf (LoadOrder.mk 0 [⟨"A.esm", true, true⟩, ⟨"B.esp", false, false⟩]).plugins =
        ["A.esm", "B.esp"] ∧
      ∀ p ∈ (LoadOrder.mk 0 [⟨"A.esm", true, true⟩, ⟨"B.esp", false, false⟩]).plugins,
        p.active = (isActiveIn (LoadOrder.mk 0 [⟨"a.ESM", true, true⟩]).plugins p.name ||
          (tsProfile.method.isTextBased && nameEq p.name tsProfile.gameMasterName)) :=
  c2_set_load_order_replaces tsProfile demoFiles
    (LoadOrder.mk 0 [⟨"a.ESM", true, true⟩]) ["A.esm", "B.esp"]
    (LoadOrder.mk 0 [⟨"A.esm", true, true⟩, ⟨"B.esp", false, false⟩]) (by decide)

/-- C8 counterexample: under a Textfile game the game master is NOT in the
(empty) load order, yet deactivate fails instead of succeeding as a no-op —
the protected-name checks run before the presence check. -/
theorem c8_counterexample :
    containsName emptyLoadOrder.plugins "Game.esm" = false ∧
      isError (deactivate tfProfile demoFiles emptyLoadOrder "Game.esm") = true := by
  decide

/-- C8 as amended: deactivating a plugin absent from the load order is a
no-op success for every name that is not the protected game master
(Textfile/Asterisk) nor Update.esm (TES5). -/
theorem c8_deactivate_absent_noop (gs : GameProfile) (files : List DiskFile)
    (lo : LoadOrder) (n : String)
    (habs : containsName lo.plugins n = false)
    (hgm : ¬(gs.method.isTextBased = true ∧ nameEq n gs.gameMasterName = true))
    (hupd : ¬(gs.gameId = GameId.tes5 ∧ nameEq n "Update.esm" = true)) :
    deactivate gs files lo n = .ok lo := by
  unfold deactivate
  have c1 : (gs.method.isTextBased && nameEq n gs.gameMasterName) = false := by
    rw [Bool.eq_false_iff]
    intro hc
    exact hgm (Bool.and_eq_true_iff.mp hc)
  have c2 : (gs.gameId == GameId.tes5 && nameEq n "Update.esm") = false := by
    rw [Bool.eq_false_iff]
    intro hc
    obtain ⟨ha, hb⟩ := Bool.and_eq_true_iff.mp hc
    exact hupd ⟨by simpa using ha, hb⟩
  rw [setFlag_not_contains habs]
  simp [c1, c2]

/-- Witness for C8 as amended: deactivating the absent A.esm on an empty
Textfile state is a no-op success. -/
theorem c8_deactivate_absent_noop_witness :
    deactivate tfProfile demoFiles emptyLoadOrder "A.esm" = .ok emptyLoadOrder :=
  c8_deactivate_absent_noop tfProfile demoFiles emptyLoadOrder "A.esm"
    (by decide) (by decide) (by decide)

lemma removeName_not_contains {ps : List Plugin} {n : String}
    (h : containsName ps n = false) : removeName ps n = ps := by
  rw [removeName, List.filter_eq_self]
  intro p hp
  have := List.any_eq_false.mp h p hp
  simpa using this

lemma find?_none_of_not_contains {ps : List Plugin} {n : String}
    (h : containsName ps n = false) :
    ps.find? (fun p => nameEq p.name n) = none := by
  rw [List.find?_eq_none]
  intro p hp
  exact List.any_eq_false.mp h p hp

/-- C6: under Textfile/Asterisk the game master owns index 0 — set_load_order
rejects any sequence not led by it, set_position rejects both placing another
plugin at index 0 and moving the game master off index 0; under the Timestamp
method neither restriction applies and the same calls succeed. -/
theorem c6_game_master_first (gs : GameProfile) (files : List DiskFile)
    (lo : LoadOrder) (n : String) (rest : List String) (i : Nat) :
    (gs.method.isTextBased = true → nameEq n gs.gameMasterName = false →
      isError (setLoadOrder gs files lo (n :: rest)) = true) ∧
    (gs.method.isTextBased = true → nameEq n gs.gameMasterName = false →
      isError (setPosition gs files lo n 0) = true) ∧
    (gs.method.isTextBased = true → nameEq n gs.gameMasterName = true →
      min i (removeName lo.plugins n).length ≠ 0 →
      isError (setPosition gs files lo n i) = true) ∧
    (gs.method.isTextBased = false →
      (n :: rest).all (fun m => isValidPlugin files m) = true →
      distinctFold (n :: rest) = true →
      mastersBeforeNonMasters files (n :: rest) = true →
      isError (setLoadOrder gs files lo (n :: rest)) = false) ∧
    (gs.method.isTextBased = false →
      containsName lo.plugins n = false →
      isValidPlugin files n = true →
      isMasterFile files n = true →
      partitionOk lo.plugins = true →
      isError (setPosition gs files lo n 0) = false) := by
  refine ⟨?_, ?_, ?_, ?_, ?_⟩
  · intro htb hn
    unfold setLoadOrder
    split_ifs with h1 h2 h3 h4 <;> simp_all [isError]
  · intro htb hn
    unfold setPosition entryFor
    cases hf : lo.plugins.find? (fun p => nameEq p.name n) with
    | some p =>
      simp only [hf]
      split_ifs with h1 h2 <;> simp_all [isError]
    | none =>
      simp only [hf]
      by_cases hv : isValidPlugin files n = true
      · simp only [hv, if_true]
        split_ifs with h1 h2 <;> simp_all [isError]
      · simp only [Bool.not_eq_true] at hv
        simp [hv, isError]
  · intro htb hn hj
    unfold setPosition entryFor
    cases hf : lo.plugins.find? (fun p => nameEq p.name n) with
    | some p =>
      simp only [hf]
      split_ifs with h1 <;> simp_all [isError]
    | none =>
      simp only [hf]
      by_cases hv : isValidPlugin files n = true
      · simp only [hv, if_true]
        split_ifs with h1 <;> simp_all [isError]
      · simp only [Bool.not_eq_true] at hv
        simp [hv, isError]
  · intro htb hall hdist hmast
    simp only [setLoadOrder, isError]
    rw [if_neg (by simp [hall]), if_neg (by simp [hdist]), if_neg (by simp [hmast]),
      if_neg (by simp [htb])]
  · intro htb habs hval hmast hpart
    have hrest : removeName lo.plugins n = lo.plugins := removeName_not_contains habs
    have hpart2 : partitionOk (insertAt (removeName lo.plugins n) 0
        { name := n, active := false, isMaster := isMasterFile files n }) = true := by
      rw [hrest]
      have hcons : insertAt lo.plugins 0
          { name := n, active := false, isMaster := isMasterFile files n } =
          { name := n, active := false, isMaster := isMasterFile files n } :: lo.plugins := by
        simp [insertAt]
      rw [hcons, partitionOk_cons_master _ (by simpa using hmast)]
      exact hpart
    unfold setPosition entryFor
    rw [find?_none_of_not_contains habs]
    simp [hval, htb, hpart2, isError, Nat.zero_min]

/-- Witness for C6: the Textfile restrictions reject A.esm leading the order
or occupying index 0 and the game master moving to index 1, while the
Timestamp method accepts the same sequence and position. -/
theorem c6_game_master_first_witness :
    (isError (setLoadOrder tfProfile demoFiles emptyLoadOrder
        ["A.esm", "Game.esm"]) = true ∧
      isError (setPosition tfProfile demoFiles emptyLoadOrder "A.esm" 0) = true ∧
      isError (setPosition tfProfile demoFiles
        (LoadOrder.mk 0 [⟨"Game.esm", true, true⟩, ⟨"A.esm", false, true⟩])
        "Game.esm" 1) = true) ∧
    (isError (setLoadOrder tsProfile demoFiles emptyLoadOrder
        ["A.esm", "Game.esm"]) = false ∧
      isError (setPosition tsProfile demoFiles emptyLoadOrder "A.esm" 0) = false) := by
  have h1 := c6_game_master_first tfProfile demoFiles emptyLoadOrder "A.esm"
    ["Game.esm"] 0
  have h2 := c6_game_master_first tfProfile demoFiles
    (LoadOrder.mk 0 [⟨"Game.esm", true, true⟩, ⟨"A.esm", false, true⟩])
    "Game.esm" [] 1
  have h3 := c6_game_master_first tsProfile demoFiles emptyLoadOrder "A.esm"
    ["Game.esm"] 0
  exact ⟨⟨h1.1 (by decide) (by decide), h1.2.1 (by decide) (by decide),
      h2.2.2.1 (by decide) (by decide) (by decide)⟩,
    h3.2.2.2.1 (by decide) (by decide) (by decide) (by decide),
    h3.2.2.2.2 (by decide) (by decide) (by decide) (by decide) (by decide)⟩

lemma partitionOk_setFlag (ps : List Plugin) (n : String) (b : Bool) :
    partitionOk (setFlag ps n b) = partitionOk ps := by
  apply partitionOk_map
  intro p
  by_cases h : nameEq p.name n = true <;> simp [h]

lemma insertPlugin_partitionOk {gs : GameProfile} {files : List DiskFile}
    {ps : List Plugin} {p : Plugin}
    (hpart : partitionOk ps = true)
    (hgm : gs.method.isTextBased = true → isMasterFile files gs.gameMasterName = true)
    (hp : p.isMaster = isMasterFile files p.name) :
    partitionOk (insertPlugin gs ps p) = true := by
  unfold insertPlugin
  split_ifs with h1 h2
  · obtain ⟨htb, hne⟩ := Bool.and_eq_true_iff.mp h1
    have hm : p.isMaster = true := by
      rw [hp, isMasterFile_congr files hne]
      exact hgm htb
    rw [partitionOk_cons_master _ hm]
    exact hpart
  · exact partitionOk_insert_master hpart h2
  · rw [Bool.not_eq_true] at h2
    exact partitionOk_append_nonmaster hpart h2

lemma foldl_insertPlugin_partitionOk {gs : GameProfile} {files : List DiskFile}
    (ns : List String) (acc : List Plugin)
    (hpart : partitionOk acc = true)
    (hgm : gs.method.isTextBased = true → isMasterFile files gs.gameMasterName = true) :
    partitionOk (ns.foldl (fun ps n =>
      insertPlugin gs ps
        { name := n, active := true, isMaster := isMasterFile files n }) acc) = true := by
  induction ns generalizing acc with
  | nil => exact hpart
  | cons n rest ih =>
    exact ih _ (insertPlugin_partitionOk hpart hgm rfl)

lemma mastersBefore_cons_master {files : List DiskFile} {n : String}
    {rest : List String} (hn : isMasterFile files n = true) :
    mastersBeforeNonMasters files (n :: rest) =
      mastersBeforeNonMasters files rest := by
  simp [mastersBeforeNonMasters, List.dropWhile_cons, hn]

lemma mastersBefore_cons_nonmaster {files : List DiskFile} {n : String}
    {rest : List String} (hn : isMasterFile files n = false) :
    mastersBeforeNonMasters files (n :: rest) =
      rest.all (fun m => !(isMasterFile files m)) := by
  simp [mastersBeforeNonMasters, List.dropWhile_cons, hn]

lemma partitionOk_map_names {files : List DiskFile} (f : String → Plugin)
    (hf : ∀ n, (f n).isMaster = isMasterFile files n) (seq : List String) :
    partitionOk (seq.map f) = mastersBeforeNonMasters files seq := by
  induction seq with
  | nil => rfl
  | cons n rest ih =>
    by_cases hn : isMasterFile files n = true
    · rw [List.map_cons, partitionOk_cons_master _ (by rw [hf]; exact hn),
        mastersBefore_cons_master hn]
      exact ih
    · rw [Bool.not_eq_true] at hn
      rw [List.map_cons, partitionOk_cons_nonmaster _ (by rw [hf]; exact hn),
        mastersBefore_cons_nonmaster hn]
      by_cases hall : ((List.map f rest).all fun q => !q.isMaster) = true
      · rw [hall]
        symm
        rw [List.all_eq_true] at hall ⊢
        intro x hx
        rw [← hf]
        exact hall (f x) (List.mem_map_of_mem f hx)
      · rw [Bool.eq_false_iff.mpr hall]
        symm
        rw [Bool.eq_false_iff]
        intro hc
        apply hall
        rw [List.all_eq_true] at hc ⊢
        intro x hx
        rw [List.mem_map] at hx
        obtain ⟨a, ha, rfl⟩ := hx
        rw [hf]
        exact hc a ha

/-! Counting lemmas for the 255-active cap. -/

lemma distinctFold_filter (q : String → Bool) {l : List String}
    (hd : distinctFold l = true) : distinctFold (l.filter q) = true := by
  induction l with
  | nil => simp [distinctFold]
  | cons n rest ih =>
    rw [distinctFold_cons_iff] at hd
    obtain ⟨hno, hrest⟩ := hd
    simp only [List.filter_cons]
    by_cases hq : q n = true
    · simp only [hq, if_true]
      rw [distinctFold_cons_iff]
      exact ⟨fun m hm => hno m (List.mem_of_mem_filter hm), ih hrest⟩
    · simp only [hq, Bool.false_eq_true, if_false]
      exact ih hrest

lemma mem_dedupeFold {l : List String} {m : String}
    (hm : m ∈ dedupeFold l) : m ∈ l := by
  induction l with
  | nil => simpa [dedupeFold] using hm
  | cons n rest ih =>
    simp only [dedupeFold, List.mem_cons] at hm ⊢
    rcases hm with h | h
    · exact Or.inl h
    · exact Or.inr (ih (List.mem_of_mem_filter h))

lemma distinctFold_dedupeFold (l : List String) :
    distinctFold (dedupeFold l) = true := by
  induction l with
  | nil => rfl
  | cons n rest ih =>
    simp only [dedupeFold]
    rw [distinctFold_cons_iff]
    refine ⟨?_, distinctFold_filter _ ih⟩
    intro m hm
    have := List.of_mem_filter hm
    simpa using this

lemma foldMem_dedupeFold {l : List String} {m : String} (hm : m ∈ l) :
    ∃ m2 ∈ dedupeFold l, nameEq m2 m = true := by
  induction l with
  | nil => simp at hm
  | cons n rest ih =>
    rcases List.mem_cons.mp hm with heq | hm2
    · refine ⟨n, List.mem_cons_self _ _, ?_⟩
      rw [heq]
      exact nameEq_refl n
    · obtain ⟨m2, hmem, heq⟩ := ih hm2
      by_cases hn : nameEq m2 n = true
      · refine ⟨n, List.mem_cons_self _ _, ?_⟩
        have : nameEq n m2 = true := by rw [nameEq_symm]; exact hn
        exact nameEq_trans this heq
      · refine ⟨m2, ?_, heq⟩
        simp only [dedupeFold, List.mem_cons]
        right
        rw [List.mem_filter]
        exact ⟨hmem, by simp [hn]⟩

lemma setPosition_some {gs : GameProfile} {files : List DiskFile}
    {lo : LoadOrder} {n : String} {i : Nat} {p : Plugin}
    (hp : entryFor files lo.plugins n = some p) :
    setPosition gs files lo n i =
      (if (gs.method.isTextBased && nameEq n gs.gameMasterName &&
          ((min i (removeName lo.plugins n).length) != 0)) = true then
        Except.error LoError.orderingViolation
      else if (gs.method.isTextBased && !(nameEq n gs.gameMasterName) &&
          ((min i (removeName lo.plugins n).length) == 0)) = true then
        Except.error LoError.orderingViolation
      else if (!(partitionOk (insertAt (removeName lo.plugins n)
          (min i (removeName lo.plugins n).length) p))) = true then
        Except.error LoError.orderingViolation
      else Except.ok { lo with plugins :=
        (insertAt (removeName lo.plugins n)
          (min i (removeName lo.plugins n).length) p) }) := by
  unfold setPosition
  rw [hp]

/-- C5: every master precedes every non-master after each successful
mutation; set_load_order rejects sequences with a master after a non-master,
and set_position rejects any placement whose resulting arrangement would
break the partition. -/
theorem c5_master_partition (gs : GameProfile) (files : List DiskFile)
    (lo : LoadOrder) (seq names : List String) (n1 n2 n3 n4 : String) (i j : Nat)
    (lo2 lo3 lo4 lo5 lo6 : LoadOrder)
    (hpart : partitionOk lo.plugins = true)
    (hgm : gs.method.isTextBased = true → isMasterFile files gs.gameMasterName = true) :
    (setLoadOrder gs files lo seq = .ok lo2 → partitionOk lo2.plugins = true) ∧
    (mastersBeforeNonMasters files seq = false →
      isError (setLoadOrder gs files lo seq) = true) ∧
    (∀ p, entryFor files lo.plugins n1 = some p →
      partitionOk (insertAt (removeName lo.plugins n1)
        (min i (removeName lo.plugins n1).length) p) = false →
      isError (setPosition gs files lo n1 i) = true) ∧
    (setPosition gs files lo n2 j = .ok lo3 → partitionOk lo3.plugins = true) ∧
    (activate gs files lo n3 = .ok lo4 → partitionOk lo4.plugins = true) ∧
    (setActivePlugins gs files lo names = .ok lo5 → partitionOk lo5.plugins = true) ∧
    (deactivate gs files lo n4 = .ok lo6 → partitionOk lo6.plugins = true) := by
  refine ⟨?_, ?_, ?_, ?_, ?_, ?_, ?_⟩
  · intro h
    unfold setLoadOrder at h
    split_ifs at h with h1 h2 h3 h4
    rw [Except.ok.injEq] at h
    subst h
    show partitionOk (seq.map _) = true
    rw [@partitionOk_map_names files _ (fun n => rfl)]
    simpa using h3
  · intro hm
    unfold setLoadOrder
    split_ifs with h1 h2 h3 h4 <;> simp_all [isError]
  · intro p hp hv
    rw [setPosition_some hp]
    split_ifs with h1 h2 h3 <;> simp_all [isError]
  · intro h
    cases he : entryFor files lo.plugins n2 with
    | none =>
      unfold setPosition at h
      rw [he] at h
      exact Except.noConfusion h
    | some p =>
      rw [setPosition_some he] at h
      split_ifs at h with h1 h2 h3
      rw [Except.ok.injEq] at h
      subst h
      simpa using h3
  · intro h
    unfold activate at h
    split_ifs at h with h1 h2 h3 h4 h5
    · rw [Except.ok.injEq] at h
      subst h
      exact hpart
    · rw [Except.ok.injEq] at h
      subst h
      show partitionOk (setFlag _ _ _) = true
      rw [partitionOk_setFlag]
      exact hpart
    · rw [Except.ok.injEq] at h
      subst h
      show partitionOk (insertPlugin _ _ _) = true
      exact insertPlugin_partitionOk hpart hgm rfl
  · intro h
    unfold setActivePlugins at h
    split_ifs at h with h1 h2 h3 h4
    rw [Except.ok.injEq] at h
    subst h
    show partitionOk (List.foldl _ _ _) = true
    apply foldl_insertPlugin_partitionOk _ _ _ hgm
    have : partitionOk (lo.plugins.map (fun p =>
        { p with active := names.any (fun n => nameEq n p.name) })) =
        partitionOk lo.plugins := by
      apply partitionOk_map
      intro p
      rfl
    rw [this]
    exact hpart
  · intro h
    unfold deactivate at h
    split_ifs at h with h1 h2
    rw [Except.ok.injEq] at h
    subst h
    show partitionOk (setFlag _ _ _) = true
    rw [partitionOk_setFlag]
    exact hpart

/-- Witness for C5 at concrete inputs: a reorder, a rejected master-after-esp
sequence, a rejected esp-to-front move, a move, an activation, an active-set
replacement and a deactivation over the demo universe all keep masters in
front. -/
theorem c5_master_partition_witness :
    (setLoadOrder tsProfile demoFiles
        (LoadOrder.mk 0 [⟨"A.esm", false, true⟩, ⟨"B.esp", false, false⟩])
        ["A.esm", "B.esp"] =
        .ok { mtime := 0
              plugins := [⟨"A.esm", false, true⟩, ⟨"B.esp", false, false⟩] } →
      partitionOk [(⟨"A.esm", false, true⟩ : Plugin), ⟨"B.esp", false, false⟩] = true) ∧
    (mastersBeforeNonMasters demoFiles ["A.esm", "B.esp"] = false →
      isError (setLoadOrder tsProfile demoFiles
        (LoadOrder.mk 0 [⟨"A.esm", false, true⟩, ⟨"B.esp", false, false⟩])
        ["A.esm", "B.esp"]) = true) ∧
    (∀ p, entryFor demoFiles
        [(⟨"A.esm", false, true⟩ : Plugin), ⟨"B.esp", false, false⟩] "B.esp" = some p →
      partitionOk (insertAt (removeName
          [(⟨"A.esm", false, true⟩ : Plugin), ⟨"B.esp", false, false⟩] "B.esp")
        (min 0 (removeName
          [(⟨"A.esm", false, true⟩ : Plugin), ⟨"B.esp", false, false⟩] "B.esp").length)
        p) = false →
      isError (setPosition tsProfile demoFiles
        (LoadOrder.mk 0 [⟨"A.esm", false, true⟩, ⟨"B.esp", false, false⟩])
        "B.esp" 0) = true) ∧
    (setPosition tsProfile demoFiles
        (LoadOrder.mk 0 [⟨"A.esm", false, true⟩, ⟨"B.esp", false, false⟩])
        "Game.esm" 1 =
        .ok { mtime := 0
              plugins := [⟨"A.esm", false, true⟩, ⟨"Game.esm", false, true⟩,
                ⟨"B.esp", false, false⟩] } →
      partitionOk [(⟨"A.esm", false, true⟩ : Plugin), ⟨"Game.esm", false, true⟩,
        ⟨"B.esp", false, false⟩] = true) ∧
    (activate tsProfile demoFiles
        (LoadOrder.mk 0 [⟨"A.esm", false, true⟩, ⟨"B.esp", false, false⟩])
        "Update.esm" =
        .ok { mtime := 0
              plugins := [⟨"A.esm", false, true⟩, ⟨"Update.esm", true, true⟩,
                ⟨"B.esp", false, false⟩] } →
      partitionOk [(⟨"A.esm", false, true⟩ : Plugin), ⟨"Update.esm", true, true⟩,
        ⟨"B.esp", false, false⟩] = true) ∧
    (setActivePlugins tsProfile demoFiles
        (LoadOrder.mk 0 [⟨"A.esm", false, true⟩, ⟨"B.esp", false, false⟩])
        ["B.esp"] =
        .ok { mtime := 0
              plugins := [⟨"A.esm", false, true⟩, ⟨"B.esp", true, false⟩] } →
      partitionOk [(⟨"A.esm", false, true⟩ : Plugin), ⟨"B.esp", true, false⟩] = true) ∧
    (deactivate tsProfile demoFiles
        (LoadOrder.mk 0 [⟨"A.esm", false, true⟩, ⟨"B.esp", false, false⟩])
        "A.esm" =
        .ok { mtime := 0
              plugins := [⟨"A.esm", false, true⟩, ⟨"B.esp", false, false⟩] } →
      partitionOk [(⟨"A.esm", false, true⟩ : Plugin), ⟨"B.esp", false, false⟩] = true) :=
  c5_master_partition tsProfile demoFiles
    (LoadOrder.mk 0 [⟨"A.esm", false, true⟩, ⟨"B.esp", false, false⟩])
    ["A.esm", "B.esp"] ["B.esp"] "B.esp" "Game.esm" "Update.esm" "A.esm" 0 1
    { mtime := 0, plugins := [⟨"A.esm", false, true⟩, ⟨"B.esp", false, false⟩] }
    { mtime := 0, plugins := [⟨"A.esm", false, true⟩, ⟨"Game.esm", false, true⟩,
      ⟨"B.esp", false, false⟩] }
    { mtime := 0, plugins := [⟨"A.esm", false, true⟩, ⟨"Update.esm", true, true⟩,
      ⟨"B.esp", false, false⟩] }
    { mtime := 0, plugins := [⟨"A.esm", false, true⟩, ⟨"B.esp", true, false⟩] }
    { mtime := 0, plugins := [⟨"A.esm", false, true⟩, ⟨"B.esp", false, false⟩] }
    (by decide) (by decide)

lemma isActiveIn_markActive (ps : List Plugin) (ns : List String) (m : String) :
    isActiveIn (markActive ps ns) m =
      ps.any (fun p => nameEq p.name m && ns.any (fun n => nameEq n p.name)) := by
  induction ps with
  | nil => rfl
  | cons p rest ih =>
    simp only [markActive, List.map_cons, isActiveIn, List.any_cons] at ih ⊢
    rw [ih]

lemma dirScan_contains_mono {ps : List Plugin} {n : String}
    (files : List DiskFile) (h : containsName ps n = true) :
    containsName (dirScan ps files) n = true := by
  induction files generalizing ps with
  | nil => exact h
  | cons f fs ih =>
    unfold dirScan
    by_cases hc : (f.valid && !(containsName ps f.name)) = true
    · simp only [hc, if_true]
      apply ih
      have hperm := insertAt_perm ps
        (if f.isMaster then masterPartitionPoint ps else ps.length)
        { name := f.name, active := false, isMaster := f.isMaster }
      rw [containsName, List.any_eq_true]
      obtain ⟨p, hp, hpn⟩ := List.any_eq_true.mp h
      exact ⟨p, (hperm.mem_iff).mpr (List.mem_cons_of_mem _ hp), hpn⟩
    · simp only [hc, if_false]
      exact ih h

lemma containsName_dirScan_of_valid {f : DiskFile} {files : List DiskFile}
    (ps : List Plugin) (hmem : f ∈ files) (hval : f.valid = true) :
    containsName (dirScan ps files) f.name = true := by
  induction files generalizing ps with
  | nil => simp at hmem
  | cons g fs ih =>
    rcases List.mem_cons.mp hmem with heq | hmem2
    · subst heq
      unfold dirScan
      by_cases hc : (f.valid && !(containsName ps f.name)) = true
      · simp only [hc, if_true]
        apply dirScan_contains_mono
        have hperm := insertAt_perm ps
          (if f.isMaster then masterPartitionPoint ps else ps.length)
          { name := f.name, active := false, isMaster := f.isMaster }
        rw [containsName, List.any_eq_true]
        refine ⟨{ name := f.name, active := false, isMaster := f.isMaster }, ?_, ?_⟩
        · exact (hperm.mem_iff).mpr (List.mem_cons_self _ _)
        · exact nameEq_refl _
      · simp only [hc, if_false]
        rw [hval] at hc
        simp only [Bool.true_and, Bool.not_eq_true', Bool.not_eq_false] at hc
        exact dirScan_contains_mono fs hc
    · unfold dirScan
      by_cases hc : (g.valid && !(containsName ps g.name)) = true
      · simp only [hc, if_true]
        exact ih _ hmem2
      · simp only [hc, if_false]
        exact ih _ hmem2

lemma mem_take_maxActive_one {α : Type} (a : α) (l : List α) :
    a ∈ (a :: l).take maxActive := by
  rw [show maxActive = 254 + 1 from rfl, List.take_succ_cons]
  exact List.mem_cons_self _ _

lemma mem_take_maxActive_two {α : Type} (a b : α) (l : List α) :
    b ∈ (a :: b :: l).take maxActive := by
  rw [show maxActive = 253 + 1 + 1 from rfl, List.take_succ_cons,
    List.take_succ_cons]
  exact List.mem_cons_of_mem _ (List.mem_cons_self _ _)

/-- C7: load forces Update.esm active exactly when the game is TES5 and a
loadable file of that name is in the plugins directory — never for another
game (Fallout 4 included) and never when the file is absent. The active-
plugins file is assumed silent about Update.esm (forcing, not echoing, is at
issue) and the game master is a different file. -/
theorem c7_update_esm_forcing (gs : GameProfile) (d : Disk)
    (hap : ∀ n ∈ fileActiveNames gs d, nameEq n "Update.esm" = false)
    (hgm : nameEq gs.gameMasterName "Update.esm" = false) :
    isActiveIn (loadFresh gs d) "Update.esm" =
      (gs.gameId == GameId.tes5 && updateExists d.files) := by
  have hgm2 : nameEq "Update.esm" gs.gameMasterName = false := by
    rw [nameEq_symm]
    exact hgm
  show isActiveIn (markActive (buildOrder gs d.files (seedNames gs d))
    (loadActiveNames gs d (buildOrder gs d.files (seedNames gs d)))) "Update.esm" = _
  rw [isActiveIn_markActive]
  by_cases hc : (gs.gameId == GameId.tes5 && updateExists d.files) = true
  · rw [hc]
    obtain ⟨f, hfmem, hff⟩ := List.any_eq_true.mp (Bool.and_eq_true_iff.mp hc).2
    obtain ⟨hfn, hfv⟩ := Bool.and_eq_true_iff.mp hff
    have hcontf : containsName (buildOrder gs d.files (seedNames gs d))
        f.name = true := by
      show containsName (dirScan _ d.files) f.name = true
      exact containsName_dirScan_of_valid _ hfmem hfv
    have hcont : containsName (buildOrder gs d.files (seedNames gs d))
        "Update.esm" = true := by
      rw [← containsName_congr _ hfn]
      exact hcontf
    have hupdmem : "Update.esm" ∈ loadActiveNames gs d
        (buildOrder gs d.files (seedNames gs d)) := by
      unfold loadActiveNames forcedActive
      rw [if_pos hc]
      by_cases htb : gs.method.isTextBased = true
      · rw [if_pos htb]
        simp only [List.cons_append, List.nil_append, List.singleton_append,
          List.filter_cons]
        by_cases hpg : containsName (buildOrder gs d.files (seedNames gs d))
            gs.gameMasterName = true
        · rw [if_pos hpg, if_pos hcont]
          rw [show dedupeFold (gs.gameMasterName :: "Update.esm" ::
              List.filter (fun n => containsName
                (buildOrder gs d.files (seedNames gs d)) n)
              (fileActiveNames gs d)) =
            gs.gameMasterName :: (dedupeFold ("Update.esm" ::
              List.filter (fun n => containsName
                (buildOrder gs d.files (seedNames gs d)) n)
              (fileActiveNames gs d))).filter
              (fun m => !(nameEq m gs.gameMasterName)) from rfl]
          rw [show dedupeFold ("Update.esm" ::
              List.filter (fun n => containsName
                (buildOrder gs d.files (seedNames gs d)) n)
              (fileActiveNames gs d)) =
            "Update.esm" :: (dedupeFold (List.filter (fun n => containsName
                (buildOrder gs d.files (seedNames gs d)) n)
              (fileActiveNames gs d))).filter
              (fun m => !(nameEq m "Update.esm")) from rfl]
          rw [List.filter_cons, if_pos (by simp [hgm2])]
          exact mem_take_maxActive_two _ _ _
        · rw [if_neg hpg, if_pos hcont]
          rw [show dedupeFold ("Update.esm" ::
              List.filter (fun n => containsName
                (buildOrder gs d.files (seedNames gs d)) n)
              (fileActiveNames gs d)) =
            "Update.esm" :: (dedupeFold (List.filter (fun n => containsName
                (buildOrder gs d.files (seedNames gs d)) n)
              (fileActiveNames gs d))).filter
              (fun m => !(nameEq m "Update.esm")) from rfl]
          exact mem_take_maxActive_one _ _
      · rw [if_neg htb]
        simp only [List.nil_append, List.singleton_append, List.filter_cons]
        rw [if_pos hcont]
        rw [show dedupeFold ("Update.esm" ::
            List.filter (fun n => containsName
              (buildOrder gs d.files (seedNames gs d)) n)
            (fileActiveNames gs d)) =
          "Update.esm" :: (dedupeFold (List.filter (fun n => containsName
              (buildOrder gs d.files (seedNames gs d)) n)
            (fileActiveNames gs d))).filter
            (fun m => !(nameEq m "Update.esm")) from rfl]
        exact mem_take_maxActive_one _ _
    obtain ⟨p, hpmem, hpn⟩ := List.any_eq_true.mp hcont
    rw [List.any_eq_true]
    refine ⟨p, hpmem, ?_⟩
    rw [Bool.and_eq_true_iff]
    refine ⟨hpn, ?_⟩
    rw [List.any_eq_true]
    refine ⟨"Update.esm", hupdmem, ?_⟩
    rw [nameEq_symm]
    exact hpn
  · rw [Bool.eq_false_iff.mpr hc, Bool.eq_false_iff]
    intro hx
    obtain ⟨p, _, hpp⟩ := List.any_eq_true.mp hx
    obtain ⟨hpn, hpany⟩ := Bool.and_eq_true_iff.mp hpp
    obtain ⟨n, hnmem, hnp⟩ := List.any_eq_true.mp hpany
    have hnupd : nameEq n "Update.esm" = true := nameEq_trans hnp hpn
    have hnmem2 := List.Sublist.mem hnmem
      (List.take_sublist _ _)
    have hnmem3 := mem_dedupeFold hnmem2
    have hnbase := List.mem_of_mem_filter hnmem3
    rcases List.mem_append.mp hnbase with hfor | hfa
    · unfold forcedActive at hfor
      rw [if_neg hc] at hfor
      rw [List.append_nil] at hfor
      by_cases htb : gs.method.isTextBased = true
      · rw [if_pos htb] at hfor
        rw [List.mem_singleton] at hfor
        subst hfor
        rw [hnupd] at hgm
        exact Bool.noConfusion hgm
      · rw [if_neg htb] at hfor
        simp at hfor
    · have := hap n hfa
      rw [hnupd] at this
      exact Bool.noConfusion this

/-- Witness for C7 on the demo TES5 Textfile disk with an active-plugins file
naming only A.esm: Update.esm comes out active exactly because the game is
TES5 and Update.esm is on disk. -/
theorem c7_update_esm_forcing_witness :
    isActiveIn (loadFresh tfProfile demoDisk) "Update.esm" =
      (tfProfile.gameId == GameId.tes5 && updateExists demoDisk.files) :=
  c7_update_esm_forcing tfProfile demoDisk (by decide) (by decide)

/-! Round-trip infrastructure: identity lemmas showing each load stage
reproduces a well-formed saved state. -/

lemma containsName_stripActive (ps : List Plugin) (n : String) :
    containsName (stripActive ps) n = containsName ps n := by
  induction ps with
  | nil => rfl
  | cons p rest ih =>
    simp only [stripActive, List.map_cons, containsName, List.any_cons] at ih ⊢
    rw [ih]

lemma head?_stripActive (ps : List Plugin) :
    (stripActive ps).head? = ps.head?.map (fun p => { p with active := false }) := by
  cases ps <;> rfl

lemma namesOf_stripActive (ps : List Plugin) :
    namesOf (stripActive ps) = namesOf ps := by
  induction ps with
  | nil => rfl
  | cons p rest ih =>
    simp only [stripActive, namesOf, List.map_cons] at ih ⊢
    rw [ih]

lemma mem_unique_fold {ps : List Plugin} {p q : Plugin}
    (hnd : distinctFold (namesOf ps) = true) (hp : p ∈ ps) (hq : q ∈ ps)
    (heq : nameEq p.name q.name = true) : p = q := by
  induction ps with
  | nil => simp at hp
  | cons r rest ih =>
    rw [namesOf, List.map_cons, distinctFold_cons_iff] at hnd
    obtain ⟨hno, hrest⟩ := hnd
    rcases List.mem_cons.mp hp with hpr | hp2 <;>
      rcases List.mem_cons.mp hq with hqr | hq2
    · rw [hpr, hqr]
    · subst hpr
      have := hno q.name (List.mem_map_of_mem _ hq2)
      rw [show nameEq q.name p.name = true from by rw [nameEq_symm]; exact heq] at this
      exact Bool.noConfusion this
    · subst hqr
      have := hno p.name (List.mem_map_of_mem _ hp2)
      rw [heq] at this
      exact Bool.noConfusion this
    · exact ih hrest hp2 hq2

lemma lookup_of_mem_exact {files : List DiskFile} {f : DiskFile} {n : String}
    (hnd : distinctFold (files.map (fun g => g.name)) = true)
    (hmem : f ∈ files) (hname : nameEq f.name n = true) :
    lookupFile files n = some f := by
  induction files with
  | nil => simp at hmem
  | cons g rest ih =>
    rw [List.map_cons, distinctFold_cons_iff] at hnd
    obtain ⟨hno, hrest⟩ := hnd
    rcases List.mem_cons.mp hmem with heq | hmem2
    · subst heq
      show lookupFile (f :: rest) n = some f
      unfold lookupFile
      exact List.find?_cons_of_pos _ hname
    · by_cases hg : nameEq g.name n = true
      · exfalso
        have hfg : nameEq f.name g.name = true := by
          refine nameEq_trans hname ?_
          rw [nameEq_symm]
          exact hg
        have := hno f.name (List.mem_map_of_mem _ hmem2)
        rw [hfg] at this
        exact Bool.noConfusion this
      · have hskip : lookupFile (g :: rest) n = lookupFile rest n := by
          unfold lookupFile
          exact List.find?_cons_of_neg _ (by simpa using hg)
        rw [hskip]
        exact ih hrest hmem2

lemma dedupeFold_eq_self {l : List String} (hnd : distinctFold l = true) :
    dedupeFold l = l := by
  induction l with
  | nil => rfl
  | cons n rest ih =>
    rw [distinctFold_cons_iff] at hnd
    obtain ⟨hno, hrest⟩ := hnd
    simp only [dedupeFold, ih hrest]
    rw [List.filter_eq_self.mpr]
    intro m hm
    simp [hno m hm]

lemma dirScan_eq_self {ps : List Plugin} {files : List DiskFile}
    (h : ∀ f ∈ files, f.valid = true → containsName ps f.name = true) :
    dirScan ps files = ps := by
  induction files with
  | nil => rfl
  | cons f fs ih =>
    unfold dirScan
    have hcond : (f.valid && !(containsName ps f.name)) = false := by
      by_cases hv : f.valid = true
      · rw [hv, h f (List.mem_cons_self _ _) hv]
        rfl
      · rw [Bool.not_eq_true] at hv
        rw [hv]
        rfl
    rw [hcond]
    simp only [Bool.false_eq_true, if_false]
    exact ih (fun g hg => h g (List.mem_cons_of_mem _ hg))

lemma moveToFront_eq_self {ps : List Plugin} {g : String}
    (hnd : distinctFold (namesOf ps) = true)
    (hhead : ∀ p ∈ ps, nameEq p.name g = true → ps.head? = some p) :
    moveToFront ps g = ps := by
  unfold moveToFront
  cases hf : ps.find? (fun p => nameEq p.name g) with
  | none => rfl
  | some p =>
    have hpmem : p ∈ ps := List.mem_of_find?_eq_some hf
    have hpg : nameEq p.name g = true := by simpa using List.find?_some hf
    have hh := hhead p hpmem hpg
    cases ps with
    | nil => simp at hh
    | cons q rest =>
      have hqp : q = p := by
        simpa using hh
      subst hqp
      rw [namesOf, List.map_cons, distinctFold_cons_iff] at hnd
      obtain ⟨hno, _⟩ := hnd
      show q :: List.filter (fun r => !(nameEq r.name g)) (q :: rest) = q :: rest
      rw [List.filter_cons, if_neg (by simp [hpg])]
      congr 1
      rw [List.filter_eq_self]
      intro r hr
      have hnr := hno r.name (List.mem_map_of_mem _ hr)
      rw [Bool.not_eq_eq_eq_not, Bool.not_true, Bool.eq_false_iff]
      intro hc
      have hrq : nameEq r.name q.name = true := by
        refine nameEq_trans hc ?_
        rw [nameEq_symm]
        exact hpg
      rw [hrq] at hnr
      exact Bool.noConfusion hnr

lemma markActive_restore {ps : List Plugin} {ns : List String}
    (h : ∀ p ∈ ps, (ns.any (fun n => nameEq n p.name)) = p.active) :
    markActive (stripActive ps) ns = ps := by
  induction ps with
  | nil => rfl
  | cons p rest ih =>
    simp only [stripActive, List.map_cons, markActive]
    have hp := h p (List.mem_cons_self _ _)
    have hrest := ih (fun q hq => h q (List.mem_cons_of_mem _ hq))
    simp only [markActive, stripActive] at hrest
    rw [hrest]
    congr 1
    cases p with
    | mk nm ac ma =>
      simp only at hp
      simp [hp]

lemma partitionOk_stripActive (ps : List Plugin) :
    partitionOk (stripActive ps) = partitionOk ps := by
  show partitionOk (ps.map (fun p => { p with active := false })) = partitionOk ps
  exact partitionOk_map (fun p => { p with active := false }) (fun p => rfl) ps

lemma lookup_exact_of_hB {files : List DiskFile} {ps : List Plugin} {p : Plugin}
    (hA : distinctFold (files.map (fun g => g.name)) = true)
    (hB : ∀ q ∈ ps, ∃ f ∈ files, f.name = q.name ∧ f.valid = true ∧
      f.isMaster = q.isMaster)
    (hp : p ∈ ps) :
    ∃ f, lookupFile files p.name = some f ∧ f.valid = true ∧
      f.isMaster = p.isMaster ∧ f.name = p.name := by
  obtain ⟨f, hf, hfn, hfv, hfm⟩ := hB p hp
  refine ⟨f, ?_, hfv, hfm, hfn⟩
  apply lookup_of_mem_exact hA hf
  rw [hfn]
  exact nameEq_refl _

lemma isValidPlugin_of_hB {files : List DiskFile} {ps : List Plugin} {p : Plugin}
    (hA : distinctFold (files.map (fun g => g.name)) = true)
    (hB : ∀ q ∈ ps, ∃ f ∈ files, f.name = q.name ∧ f.valid = true ∧
      f.isMaster = q.isMaster)
    (hp : p ∈ ps) : isValidPlugin files p.name = true := by
  obtain ⟨f, hl, hfv, _, _⟩ := lookup_exact_of_hB hA hB hp
  unfold isValidPlugin
  rw [hl]
  exact hfv

lemma isMasterFile_of_hB {files : List DiskFile} {ps : List Plugin} {p : Plugin}
    (hA : distinctFold (files.map (fun g => g.name)) = true)
    (hB : ∀ q ∈ ps, ∃ f ∈ files, f.name = q.name ∧ f.valid = true ∧
      f.isMaster = q.isMaster)
    (hp : p ∈ ps) : isMasterFile files p.name = p.isMaster := by
  obtain ⟨f, hl, _, hfm, _⟩ := lookup_exact_of_hB hA hB hp
  unfold isMasterFile
  rw [hl]
  exact hfm

lemma mkPlugins_restore {files : List DiskFile} {ps : List Plugin}
    (hA : distinctFold (files.map (fun g => g.name)) = true)
    (hB : ∀ q ∈ ps, ∃ f ∈ files, f.name = q.name ∧ f.valid = true ∧
      f.isMaster = q.isMaster) :
    mkPlugins files (namesOf ps) = stripActive ps := by
  unfold mkPlugins stripActive namesOf
  rw [List.map_map]
  apply List.map_congr_left
  intro p hp
  have hm := isMasterFile_of_hB hA hB hp
  cases p with
  | mk nm ac ma =>
    simp only [Function.comp] at hm ⊢
    rw [hm]

lemma buildOrder_restore {gs : GameProfile} {files : List DiskFile}
    {ps : List Plugin} {seed : List String}
    (hseed : dedupeFold (seed.filter (fun n => isValidPlugin files n)) = namesOf ps)
    (hA : distinctFold (files.map (fun g => g.name)) = true)
    (hB : ∀ q ∈ ps, ∃ f ∈ files, f.name = q.name ∧ f.valid = true ∧
      f.isMaster = q.isMaster)
    (hC : ∀ f ∈ files, f.valid = true → containsName ps f.name = true)
    (hD : distinctFold (namesOf ps) = true)
    (hE : partitionOk ps = true)
    (hG : gs.method.isTextBased = true → ∀ p ∈ ps,
      nameEq p.name gs.gameMasterName = true → ps.head? = some p) :
    buildOrder gs files seed = stripActive ps := by
  have h1 : buildOrder gs files seed = dirScan
      (if gs.method.isTextBased = true then
        moveToFront (partitionMasters (mkPlugins files
          (dedupeFold (seed.filter (fun n => isValidPlugin files n)))))
          gs.gameMasterName
      else partitionMasters (mkPlugins files
        (dedupeFold (seed.filter (fun n => isValidPlugin files n))))) files := rfl
  rw [h1, hseed, mkPlugins_restore hA hB,
    partitionMasters_eq_self (by rw [partitionOk_stripActive]; exact hE)]
  have hmv : (if gs.method.isTextBased = true then
      moveToFront (stripActive ps) gs.gameMasterName else stripActive ps) =
      stripActive ps := by
    by_cases htb : gs.method.isTextBased = true
    · rw [if_pos htb]
      apply moveToFront_eq_self
      · rw [show namesOf (stripActive ps) = namesOf ps from namesOf_stripActive ps]
        exact hD
      · intro q hq hqg
        simp only [stripActive, List.mem_map] at hq
        obtain ⟨p, hp, rfl⟩ := hq
        have := hG htb p hp hqg
        rw [head?_stripActive, this]
        rfl
    · rw [if_neg htb]
  rw [hmv]
  exact dirScan_eq_self (fun f hf hv => by
    rw [containsName_stripActive]
    exact hC f hf hv)

lemma mem_activeNamesOf {ps : List Plugin} {q : Plugin} (hq : q ∈ ps)
    (hqa : q.active = true) : q.name ∈ activeNamesOf ps :=
  List.mem_map_of_mem _ (List.mem_filter.mpr ⟨hq, hqa⟩)

lemma forced_implies_active {gs : GameProfile} {files : List DiskFile}
    {ps : List Plugin}
    (hA : distinctFold (files.map (fun g => g.name)) = true)
    (hB : ∀ q ∈ ps, ∃ f ∈ files, f.name = q.name ∧ f.valid = true ∧
      f.isMaster = q.isMaster)
    (hD : distinctFold (namesOf ps) = true)
    (hH : gs.method.isTextBased = true →
      isValidPlugin files gs.gameMasterName = true →
      isActiveIn ps gs.gameMasterName = true)
    (hI : gs.gameId = GameId.tes5 → updateExists files = true →
      isActiveIn ps "Update.esm" = true) :
    ∀ m ∈ forcedActive gs files, ∀ p ∈ ps,
      nameEq m p.name = true → p.active = true := by
  intro m hm p hp hmp
  unfold forcedActive at hm
  rcases List.mem_append.mp hm with hg | hu
  · by_cases htb : gs.method.isTextBased = true
    · rw [if_pos htb, List.mem_singleton] at hg
      subst hg
      have hv : isValidPlugin files gs.gameMasterName = true := by
        rw [isValidPlugin_congr files hmp]
        exact isValidPlugin_of_hB hA hB hp
      have hact := hH htb hv
      obtain ⟨r, hr, hrn, hra⟩ := isActiveIn_iff.mp hact
      have hrp : nameEq r.name p.name = true := nameEq_trans hrn hmp
      rw [← mem_unique_fold hD hr hp hrp]
      exact hra
    · rw [if_neg htb] at hg
      simp at hg
  · by_cases hcond : (gs.gameId == GameId.tes5 && updateExists files) = true
    · rw [if_pos hcond, List.mem_singleton] at hu
      subst hu
      obtain ⟨ht5, hue⟩ := Bool.and_eq_true_iff.mp hcond
      have hact := hI (by simpa using ht5) hue
      obtain ⟨r, hr, hrn, hra⟩ := isActiveIn_iff.mp hact
      have hrp : nameEq r.name p.name = true := nameEq_trans hrn hmp
      rw [← mem_unique_fold hD hr hp hrp]
      exact hra
    · rw [if_neg hcond] at hu
      simp at hu

lemma loadActiveNames_restore {gs : GameProfile} {d2 : Disk} {ps : List Plugin}
    (hD : distinctFold (namesOf ps) = true)
    (hcap : countActive ps ≤ maxActive)
    (hfact1 : ∀ n ∈ fileActiveNames gs d2, ∃ q ∈ ps, q.active = true ∧
      nameEq n q.name = true)
    (hfact2 : ∀ p ∈ ps, p.active = true →
      p.name ∈ fileActiveNames gs d2 ∨
        ∃ m ∈ forcedActive gs d2.files, nameEq m p.name = true)
    (hforced : ∀ m ∈ forcedActive gs d2.files, ∀ p ∈ ps,
      nameEq m p.name = true → p.active = true) :
    ∀ p ∈ ps, ((loadActiveNames gs d2 (stripActive ps)).any
      (fun n => nameEq n p.name)) = p.active := by
  have hsub : ∀ a ∈ ((forcedActive gs d2.files ++ fileActiveNames gs d2).filter
      (fun n => containsName (stripActive ps) n)), ∃ b ∈ activeNamesOf ps,
      fold a = fold b := by
    intro a ha
    have hpred := List.of_mem_filter ha
    rw [containsName_stripActive] at hpred
    have hmem := List.mem_of_mem_filter ha
    rcases List.mem_append.mp hmem with hfor | hfa
    · obtain ⟨p2, hp2, hp2n⟩ := containsName_iff.mp hpred
      have hact := hforced a hfor p2 hp2 (by rw [nameEq_symm]; exact hp2n)
      refine ⟨p2.name, mem_activeNamesOf hp2 hact, ?_⟩
      rw [← nameEq_iff, nameEq_symm]
      exact hp2n
    · obtain ⟨q, hq, hqa, hnq⟩ := hfact1 a hfa
      refine ⟨q.name, mem_activeNamesOf hq hqa, ?_⟩
      rw [← nameEq_iff]
      exact hnq
  have hlen : (dedupeFold ((forcedActive gs d2.files ++ fileActiveNames gs d2).filter
      (fun n => containsName (stripActive ps) n))).length ≤ maxActive := by
    have h1 := @length_le_of_fold_embed
      (dedupeFold ((forcedActive gs d2.files ++ fileActiveNames gs d2).filter
        (fun n => containsName (stripActive ps) n)))
      (activeNamesOf ps)
      (by rw [← distinctFold_iff]; exact distinctFold_dedupeFold _)
      (fun a ha => hsub a (mem_dedupeFold ha))
    rw [← countActive_eq_length_activeNames] at h1
    exact le_trans h1 hcap
  have htake : loadActiveNames gs d2 (stripActive ps) =
      dedupeFold ((forcedActive gs d2.files ++ fileActiveNames gs d2).filter
        (fun n => containsName (stripActive ps) n)) := by
    unfold loadActiveNames
    exact List.take_of_length_le hlen
  rw [htake]
  intro p hp
  by_cases hact : p.active = true
  · rw [hact, List.any_eq_true]
    rcases hfact2 p hp hact with hmem | ⟨m, hmf, hmp⟩
    · have hfil : p.name ∈ (forcedActive gs d2.files ++
          fileActiveNames gs d2).filter
          (fun n => containsName (stripActive ps) n) := by
        rw [List.mem_filter]
        refine ⟨List.mem_append.mpr (Or.inr hmem), ?_⟩
        rw [containsName_stripActive]
        exact containsName_iff.mpr ⟨p, hp, nameEq_refl _⟩
      obtain ⟨m2, hm2, hm2e⟩ := foldMem_dedupeFold hfil
      exact ⟨m2, hm2, hm2e⟩
    · have hfil : m ∈ (forcedActive gs d2.files ++
          fileActiveNames gs d2).filter
          (fun n => containsName (stripActive ps) n) := by
        rw [List.mem_filter]
        refine ⟨List.mem_append.mpr (Or.inl hmf), ?_⟩
        rw [containsName_stripActive]
        refine containsName_iff.mpr ⟨p, hp, ?_⟩
        rw [nameEq_symm]
        exact hmp
      obtain ⟨m2, hm2, hm2e⟩ := foldMem_dedupeFold hfil
      exact ⟨m2, hm2, nameEq_trans hm2e hmp⟩
  · rw [Bool.not_eq_true] at hact
    rw [hact, List.any_eq_false]
    intro n hn
    intro hnp
    have hnbase := List.mem_of_mem_filter (mem_dedupeFold hn)
    rcases List.mem_append.mp hnbase with hfor | hfa
    · have := hforced n hfor p hp hnp
      rw [hact] at this
      exact Bool.noConfusion this
    · obtain ⟨q, hq, hqa, hnq⟩ := hfact1 n hfa
      have hqp : nameEq q.name p.name = true :=
        nameEq_trans (by rw [nameEq_symm]; exact hnq) hnp
      have heqq := mem_unique_fold hD hq hp hqp
      rw [heqq] at hqa
      rw [hact] at hqa
      exact Bool.noConfusion hqa

lemma fileOrd_of_mtime_lt {a b : DiskFile} (h : a.mtime < b.mtime) :
    fileOrd a b := by
  unfold fileOrd fileKey
  rw [Prod.Lex.le_iff]
  left
  exact h

lemma lookup_assign (files : List DiskFile) (ns : List String) (n : String) :
    lookupFile (assignTimestamps files ns) n =
      (lookupFile files n).map (fun f =>
        if ns.any (fun m => nameEq m f.name) then
          { f with mtime := 2 * (idxFold ns f.name : Int) } else f) := by
  induction files with
  | nil => rfl
  | cons f fs ih =>
    have hname : (if ns.any (fun m => nameEq m f.name) then
        { f with mtime := 2 * (idxFold ns f.name : Int) } else f).name = f.name := by
      by_cases hc : (ns.any fun m => nameEq m f.name) = true
      · rw [if_pos hc]
      · rw [if_neg hc]
    show lookupFile ((if ns.any (fun m => nameEq m f.name) then
        { f with mtime := 2 * (idxFold ns f.name : Int) } else f) ::
        assignTimestamps fs ns) n = _
    by_cases h : nameEq f.name n = true
    · have hl : lookupFile (f :: fs) n = some f := by
        unfold lookupFile
        exact List.find?_cons_of_pos fs h
      have hl2 : lookupFile ((if ns.any (fun m => nameEq m f.name) then
          { f with mtime := 2 * (idxFold ns f.name : Int) } else f) ::
          assignTimestamps fs ns) n =
          some (if ns.any (fun m => nameEq m f.name) then
          { f with mtime := 2 * (idxFold ns f.name : Int) } else f) := by
        unfold lookupFile
        exact List.find?_cons_of_pos _ (by rw [hname]; exact h)
      rw [hl2, hl]
      rfl
    · have hl : lookupFile (f :: fs) n = lookupFile fs n := by
        unfold lookupFile
        exact List.find?_cons_of_neg fs (by simpa using h)
      have hl2 : lookupFile ((if ns.any (fun m => nameEq m f.name) then
          { f with mtime := 2 * (idxFold ns f.name : Int) } else f) ::
          assignTimestamps fs ns) n = lookupFile (assignTimestamps fs ns) n := by
        unfold lookupFile
        exact List.find?_cons_of_neg _ (by rw [hname]; simpa using h)
      rw [hl2, hl, ih]

lemma names_assign (files : List DiskFile) (ns : List String) :
    (assignTimestamps files ns).map (fun f => f.name) =
      files.map (fun f => f.name) := by
  unfold assignTimestamps
  rw [List.map_map]
  apply List.map_congr_left
  intro f _
  by_cases hc : (ns.any fun m => nameEq m f.name) = true
  · rw [Function.comp_apply, if_pos hc]
  · rw [Function.comp_apply, if_neg hc]

lemma isValidPlugin_assign (files : List DiskFile) (ns : List String)
    (n : String) :
    isValidPlugin (assignTimestamps files ns) n = isValidPlugin files n := by
  unfold isValidPlugin
  rw [lookup_assign]
  cases h : lookupFile files n with
  | none => rfl
  | some f =>
    show (if ns.any (fun m => nameEq m f.name) then
      { f with mtime := 2 * (idxFold ns f.name : Int) } else f).valid = f.valid
    by_cases hc : (ns.any fun m => nameEq m f.name) = true
    · rw [if_pos hc]
    · rw [if_neg hc]

lemma updateExists_assign (files : List DiskFile) (ns : List String) :
    updateExists (assignTimestamps files ns) = updateExists files := by
  induction files with
  | nil => rfl
  | cons f fs ih =>
    show updateExists ((if ns.any (fun m => nameEq m f.name) then
        { f with mtime := 2 * (idxFold ns f.name : Int) } else f) ::
        assignTimestamps fs ns) = _
    unfold updateExists
    rw [List.any_cons, List.any_cons]
    have ih2 : (assignTimestamps fs ns).any
        (fun g => nameEq g.name "Update.esm" && g.valid) =
        fs.any (fun g => nameEq g.name "Update.esm" && g.valid) := ih
    rw [ih2]
    congr 1
    by_cases hc : (ns.any fun m => nameEq m f.name) = true
    · rw [if_pos hc]
    · rw [if_neg hc]

lemma idxFold_congr (ns : List String) {a b : String} (h : nameEq a b = true) :
    idxFold ns a = idxFold ns b := by
  unfold idxFold
  have hf : (fun m => nameEq m a) = (fun m => nameEq m b) := by
    funext m
    unfold nameEq
    rw [nameEq_iff.mp h]
  rw [hf]

lemma idxFold_head (n : String) (rest : List String) :
    idxFold (n :: rest) n = 0 := by
  unfold idxFold
  rw [List.findIdx?_cons, if_pos (nameEq_refl n)]

lemma idxFold_cons_mem {n m : String} {rest : List String} (hm : m ∈ rest)
    (hne : nameEq n m = false) :
    idxFold (n :: rest) m = idxFold rest m + 1 := by
  unfold idxFold
  rw [List.findIdx?_cons, if_neg (by simp [hne]), List.findIdx?_succ]
  cases hx : rest.findIdx? (fun k => nameEq k m) with
  | none =>
    exfalso
    have h2 := List.findIdx?_eq_none_iff.mp hx m hm
    rw [nameEq_refl] at h2
    simp at h2
  | some i => rfl

lemma idxFold_pairwise {ns : List String} (hnd : distinctFold ns = true) :
    ns.Pairwise (fun a b => idxFold ns a < idxFold ns b) := by
  induction ns with
  | nil => exact List.Pairwise.nil
  | cons n rest ih =>
    rw [distinctFold_cons_iff] at hnd
    obtain ⟨hno, hrest⟩ := hnd
    refine List.Pairwise.cons ?_ ?_
    · intro m hm
      have hne : nameEq n m = false := by rw [nameEq_symm]; exact hno m hm
      rw [idxFold_head, idxFold_cons_mem hm hne]
      omega
    · have hpw := ih hrest
      refine List.Pairwise.imp_of_mem ?_ hpw
      intro a b ha hb hab
      have hna : nameEq n a = false := by rw [nameEq_symm]; exact hno a ha
      have hnb : nameEq n b = false := by rw [nameEq_symm]; exact hno b hb
      rw [idxFold_cons_mem ha hna, idxFold_cons_mem hb hnb]
      omega

lemma sorted_filterMap_lookup {files2 : List DiskFile} {names : List String}
    (hnd : distinctFold names = true)
    (hmt : ∀ n ∈ names, ∀ f, lookupFile files2 n = some f →
      f.mtime = 2 * (idxFold names n : Int)) :
    List.Sorted fileOrd (names.filterMap (fun n => lookupFile files2 n)) := by
  have hpw2 : List.Pairwise fileOrd
      (names.filterMap (fun n => lookupFile files2 n)) := by
    rw [List.pairwise_filterMap]
    refine List.Pairwise.imp_of_mem ?_ (idxFold_pairwise hnd)
    intro a b ha hb hab x hx y hy
    have hxa : x.mtime = 2 * (idxFold names a : Int) :=
      hmt a ha x (Option.mem_def.mp hx)
    have hyb : y.mtime = 2 * (idxFold names b : Int) :=
      hmt b hb y (Option.mem_def.mp hy)
    apply fileOrd_of_mtime_lt
    rw [hxa, hyb]
    omega
  exact hpw2

lemma filterMap_lookup_names {files2 : List DiskFile} (l : List String) :
    (∀ n ∈ l, ∃ f, lookupFile files2 n = some f ∧ f.name = n) →
    (l.filterMap (fun n => lookupFile files2 n)).map (fun f => f.name) = l := by
  induction l with
  | nil => intro _; rfl
  | cons n rest ih =>
    intro h
    obtain ⟨f, hf, hfn⟩ := h n (List.mem_cons_self n rest)
    rw [List.filterMap_cons_some hf, List.map_cons, hfn,
      ih (fun m hm => h m (List.mem_cons_of_mem n hm))]

lemma insertionSort_restore {files2 : List DiskFile} {ps : List Plugin}
    (hA2 : distinctFold (files2.map (fun g => g.name)) = true)
    (hB2 : ∀ q ∈ ps, ∃ f ∈ files2, f.name = q.name ∧ f.valid = true ∧
      f.isMaster = q.isMaster)
    (hC2 : ∀ f ∈ files2, f.valid = true → containsName ps f.name = true)
    (hD : distinctFold (namesOf ps) = true)
    (hmt : ∀ n ∈ namesOf ps, ∀ f, lookupFile files2 n = some f →
      f.mtime = 2 * (idxFold (namesOf ps) n : Int)) :
    ((files2.filter (fun f => f.valid)).insertionSort fileOrd).map
      (fun f => f.name) = namesOf ps := by
  have hlook : ∀ n ∈ namesOf ps, ∃ f, lookupFile files2 n = some f ∧
      f.name = n := by
    intro n hn
    obtain ⟨p, hp, hpn⟩ := List.mem_map.mp hn
    obtain ⟨f, hf, _, _, hfn⟩ := lookup_exact_of_hB hA2 hB2 hp
    exact ⟨f, hpn ▸ hf, hfn.trans hpn⟩
  have hTnames : ((namesOf ps).filterMap (fun n => lookupFile files2 n)).map
      (fun f => f.name) = namesOf ps := filterMap_lookup_names _ hlook
  have hnodupNames : (namesOf ps).Nodup :=
    List.Nodup.of_map fold (distinctFold_iff.mp hD)
  have hTnodup : ((namesOf ps).filterMap
      (fun n => lookupFile files2 n)).Nodup := by
    apply List.Nodup.of_map (fun f => f.name)
    rw [hTnames]
    exact hnodupNames
  have hFnodup : (files2.filter (fun f => f.valid)).Nodup := by
    apply List.Nodup.filter
    apply List.Nodup.of_map (fun g => g.name)
    exact List.Nodup.of_map fold (distinctFold_iff.mp hA2)
  have hperm : (files2.filter (fun f => f.valid)).Perm
      ((namesOf ps).filterMap (fun n => lookupFile files2 n)) := by
    rw [List.perm_ext_iff_of_nodup hFnodup hTnodup]
    intro f
    constructor
    · intro hf
      obtain ⟨hmem, hval⟩ := List.mem_filter.mp hf
      have hcont := hC2 f hmem hval
      unfold containsName at hcont
      obtain ⟨p, hp, hpe⟩ := List.any_eq_true.mp hcont
      have hl : lookupFile files2 p.name = some f :=
        lookup_of_mem_exact hA2 hmem (by rw [nameEq_symm]; exact hpe)
      exact List.mem_filterMap.mpr ⟨p.name, List.mem_map_of_mem _ hp, hl⟩
    · intro hf
      obtain ⟨n, hn, hl⟩ := List.mem_filterMap.mp hf
      obtain ⟨p, hp, hpn⟩ := List.mem_map.mp hn
      obtain ⟨f2, hf2, hf2v, _, _⟩ := lookup_exact_of_hB hA2 hB2 hp
      rw [hpn, hl] at hf2
      have he : f = f2 := Option.some.inj hf2
      subst he
      exact List.mem_filter.mpr ⟨List.mem_of_find?_eq_some hl, hf2v⟩
  have heq : (files2.filter (fun f => f.valid)).insertionSort fileOrd =
      (namesOf ps).filterMap (fun n => lookupFile files2 n) :=
    List.eq_of_perm_of_sorted ((List.perm_insertionSort _ _).trans hperm)
      (List.sorted_insertionSort _ _) (sorted_filterMap_lookup hD hmt)
  rw [heq, hTnames]

lemma fact1_activeNames (ps : List Plugin) :
    ∀ n ∈ activeNamesOf ps, ∃ q ∈ ps, q.active = true ∧
      nameEq n q.name = true := by
  intro n hn
  obtain ⟨q, hq, rfl⟩ := List.mem_map.mp hn
  obtain ⟨hqm, hqa⟩ := List.mem_filter.mp hq
  exact ⟨q, hqm, hqa, nameEq_refl _⟩

lemma filter_isValid_namesOf {files : List DiskFile} {ps : List Plugin}
    (hA : distinctFold (files.map (fun g => g.name)) = true)
    (hB : ∀ q ∈ ps, ∃ f ∈ files, f.name = q.name ∧ f.valid = true ∧
      f.isMaster = q.isMaster) :
    (namesOf ps).filter (fun n => isValidPlugin files n) = namesOf ps := by
  rw [List.filter_eq_self]
  intro n hn
  obtain ⟨p, hp, rfl⟩ := List.mem_map.mp hn
  exact isValidPlugin_of_hB hA hB hp

lemma loadFresh_restore {gs : GameProfile} {d2 : Disk} {ps : List Plugin}
    (hA2 : distinctFold (d2.files.map (fun g => g.name)) = true)
    (hB2 : ∀ q ∈ ps, ∃ f ∈ d2.files, f.name = q.name ∧ f.valid = true ∧
      f.isMaster = q.isMaster)
    (hC2 : ∀ f ∈ d2.files, f.valid = true → containsName ps f.name = true)
    (hD : distinctFold (namesOf ps) = true)
    (hE : partitionOk ps = true)
    (hcap : countActive ps ≤ maxActive)
    (hG2 : gs.method.isTextBased = true → ∀ p ∈ ps,
      nameEq p.name gs.gameMasterName = true → ps.head? = some p)
    (hseed : dedupeFold ((seedNames gs d2).filter
      (fun n => isValidPlugin d2.files n)) = namesOf ps)
    (hfact1 : ∀ n ∈ fileActiveNames gs d2, ∃ q ∈ ps, q.active = true ∧
      nameEq n q.name = true)
    (hfact2 : ∀ p ∈ ps, p.active = true →
      p.name ∈ fileActiveNames gs d2 ∨
        ∃ m ∈ forcedActive gs d2.files, nameEq m p.name = true)
    (hforced : ∀ m ∈ forcedActive gs d2.files, ∀ p ∈ ps,
      nameEq m p.name = true → p.active = true) :
    loadFresh gs d2 = ps := by
  have hbuild := buildOrder_restore hseed hA2 hB2 hC2 hD hE hG2
  show markActive (buildOrder gs d2.files (seedNames gs d2))
    (loadActiveNames gs d2 (buildOrder gs d2.files (seedNames gs d2))) = ps
  rw [hbuild]
  exact markActive_restore (loadActiveNames_restore hD hcap hfact1 hfact2 hforced)

lemma assign_fields (ns : List String) (f : DiskFile) :
    (if ns.any (fun m => nameEq m f.name) then
      { f with mtime := 2 * (idxFold ns f.name : Int) } else f).name = f.name ∧
    (if ns.any (fun m => nameEq m f.name) then
      { f with mtime := 2 * (idxFold ns f.name : Int) } else f).valid = f.valid ∧
    (if ns.any (fun m => nameEq m f.name) then
      { f with mtime := 2 * (idxFold ns f.name : Int) } else f).isMaster =
        f.isMaster := by
  by_cases hc : (ns.any fun m => nameEq m f.name) = true
  · rw [if_pos hc]
    exact ⟨rfl, rfl, rfl⟩
  · rw [if_neg hc]
    exact ⟨rfl, rfl, rfl⟩

lemma assign_mem (ns : List String) {files : List DiskFile} {f : DiskFile}
    (hf : f ∈ files) :
    ∃ f2 ∈ assignTimestamps files ns, f2.name = f.name ∧ f2.valid = f.valid ∧
      f2.isMaster = f.isMaster :=
  ⟨(if ns.any (fun m => nameEq m f.name) then
    { f with mtime := 2 * (idxFold ns f.name : Int) } else f),
    List.mem_map_of_mem _ hf, assign_fields ns f⟩

lemma ts_case_core (gid : GameId) (m : Method) (gm : String) (d : Disk)
    (lo : LoadOrder)
    (htb : m.isTextBased = false)
    (hA : distinctFold (d.files.map (fun g => g.name)) = true)
    (hB : ∀ q ∈ lo.plugins, ∃ f ∈ d.files, f.name = q.name ∧ f.valid = true ∧
      f.isMaster = q.isMaster)
    (hC : ∀ f ∈ d.files, f.valid = true → containsName lo.plugins f.name = true)
    (hD : distinctFold (namesOf lo.plugins) = true)
    (hE : partitionOk lo.plugins = true)
    (hcap : countActive lo.plugins ≤ maxActive)
    (hI : gid = GameId.tes5 → updateExists d.files = true →
      isActiveIn lo.plugins "Update.esm" = true)
    (hseedEq : seedNames ⟨gid, m, gm⟩ (tsDisk d lo) =
      ((validFiles (tsDisk d lo)).insertionSort fileOrd).map (fun f => f.name))
    (hfaEq0 : fileActiveNames ⟨gid, m, gm⟩ (tsDisk d lo) =
      ((activeNamesOf lo.plugins).map (fun n => (n, true))).map
        (fun x => x.1)) :
    loadFresh ⟨gid, m, gm⟩ (tsDisk d lo) = lo.plugins := by
  have hfaEq : fileActiveNames ⟨gid, m, gm⟩ (tsDisk d lo) =
      activeNamesOf lo.plugins := by
    rw [hfaEq0, List.map_map]
    exact List.map_id _
  have hA2 : distinctFold ((assignTimestamps d.files
      (namesOf lo.plugins)).map (fun g => g.name)) = true := by
    rw [names_assign]
    exact hA
  have hB2 : ∀ q ∈ lo.plugins, ∃ f ∈ assignTimestamps d.files
      (namesOf lo.plugins), f.name = q.name ∧ f.valid = true ∧
      f.isMaster = q.isMaster := by
    intro q hq
    obtain ⟨f, hf, h1, h2, h3⟩ := hB q hq
    obtain ⟨f2, hf2, e1, e2, e3⟩ := assign_mem (namesOf lo.plugins) hf
    exact ⟨f2, hf2, by rw [e1, h1], by rw [e2]; exact h2, by rw [e3]; exact h3⟩
  have hC2 : ∀ f ∈ assignTimestamps d.files (namesOf lo.plugins),
      f.valid = true → containsName lo.plugins f.name = true := by
    intro f2 hf2 hv
    obtain ⟨f, hf, hfe⟩ := List.mem_map.mp hf2
    have hfe2 : (if (namesOf lo.plugins).any (fun n => nameEq n f.name) then
        { f with mtime := 2 * (idxFold (namesOf lo.plugins) f.name : Int) }
        else f) = f2 := hfe
    obtain ⟨e1, e2, _⟩ := assign_fields (namesOf lo.plugins) f
    rw [← hfe2] at hv ⊢
    rw [e2] at hv
    rw [e1]
    exact hC f hf hv
  have hmt : ∀ n ∈ namesOf lo.plugins, ∀ f,
      lookupFile (assignTimestamps d.files (namesOf lo.plugins)) n = some f →
      f.mtime = 2 * (idxFold (namesOf lo.plugins) n : Int) := by
    intro n hn f hlf
    rw [lookup_assign] at hlf
    obtain ⟨f0, hf0, hgf⟩ := Option.map_eq_some'.mp hlf
    have hf0n : nameEq f0.name n = true := by simpa using List.find?_some hf0
    have hcond : ((namesOf lo.plugins).any
        (fun m2 => nameEq m2 f0.name)) = true := by
      rw [List.any_eq_true]
      exact ⟨n, hn, by rw [nameEq_symm]; exact hf0n⟩
    rw [if_pos hcond] at hgf
    rw [← hgf]
    show (2 : Int) * (idxFold (namesOf lo.plugins) f0.name : Int) = _
    rw [idxFold_congr (namesOf lo.plugins) hf0n]
  have hsort := insertionSort_restore hA2 hB2 hC2 hD hmt
  have hseed : dedupeFold ((seedNames ⟨gid, m, gm⟩ (tsDisk d lo)).filter
      (fun n => isValidPlugin (tsDisk d lo).files n)) = namesOf lo.plugins := by
    rw [hseedEq]
    have hvf : validFiles (tsDisk d lo) =
        (assignTimestamps d.files (namesOf lo.plugins)).filter
          (fun f => f.valid) := rfl
    rw [hvf, hsort]
    have hval : ∀ n ∈ namesOf lo.plugins,
        isValidPlugin (tsDisk d lo).files n = true := by
      intro n hn
      obtain ⟨p, hp, rfl⟩ := List.mem_map.mp hn
      show isValidPlugin (assignTimestamps d.files (namesOf lo.plugins))
        p.name = true
      rw [isValidPlugin_assign]
      exact isValidPlugin_of_hB hA hB hp
    rw [List.filter_eq_self.mpr hval]
    exact dedupeFold_eq_self hD
  have hfact1 : ∀ n ∈ fileActiveNames ⟨gid, m, gm⟩ (tsDisk d lo),
      ∃ q ∈ lo.plugins, q.active = true ∧ nameEq n q.name = true := by
    rw [hfaEq]
    exact fact1_activeNames lo.plugins
  have hfact2 : ∀ p ∈ lo.plugins, p.active = true →
      p.name ∈ fileActiveNames ⟨gid, m, gm⟩ (tsDisk d lo) ∨
        ∃ m2 ∈ forcedActive ⟨gid, m, gm⟩ (tsDisk d lo).files,
          nameEq m2 p.name = true := by
    intro p hp hact
    left
    rw [hfaEq]
    exact mem_activeNamesOf hp hact
  have hH2 : (⟨gid, m, gm⟩ : GameProfile).method.isTextBased = true →
      isValidPlugin (assignTimestamps d.files (namesOf lo.plugins))
        (⟨gid, m, gm⟩ : GameProfile).gameMasterName = true →
      isActiveIn lo.plugins
        (⟨gid, m, gm⟩ : GameProfile).gameMasterName = true := by
    intro h
    have h3 : m.isTextBased = true := h
    rw [htb] at h3
    exact absurd h3 (by simp)
  have hI2 : (⟨gid, m, gm⟩ : GameProfile).gameId = GameId.tes5 →
      updateExists (assignTimestamps d.files (namesOf lo.plugins)) = true →
      isActiveIn lo.plugins "Update.esm" = true := by
    intro h5 hu
    rw [updateExists_assign] at hu
    exact hI h5 hu
  have hforced : ∀ m2 ∈ forcedActive ⟨gid, m, gm⟩ (tsDisk d lo).files,
      ∀ p ∈ lo.plugins, nameEq m2 p.name = true → p.active = true :=
    forced_implies_active hA2 hB2 hD hH2 hI2
  have hG2 : (⟨gid, m, gm⟩ : GameProfile).method.isTextBased = true →
      ∀ p ∈ lo.plugins,
        nameEq p.name (⟨gid, m, gm⟩ : GameProfile).gameMasterName = true →
        lo.plugins.head? = some p := by
    intro h
    have h3 : m.isTextBased = true := h
    rw [htb] at h3
    exact absurd h3 (by simp)
  exact loadFresh_restore hA2 hB2 hC2 hD hE hcap hG2 hseed hfact1 hfact2 hforced

lemma tf_case_core (gid : GameId) (gm : String) (d : Disk) (lo : LoadOrder)
    (hA : distinctFold (d.files.map (fun g => g.name)) = true)
    (hB : ∀ q ∈ lo.plugins, ∃ f ∈ d.files, f.name = q.name ∧ f.valid = true ∧
      f.isMaster = q.isMaster)
    (hC : ∀ f ∈ d.files, f.valid = true → containsName lo.plugins f.name = true)
    (hD : distinctFold (namesOf lo.plugins) = true)
    (hE : partitionOk lo.plugins = true)
    (hcap : countActive lo.plugins ≤ maxActive)
    (hG2 : ∀ p ∈ lo.plugins, nameEq p.name gm = true →
      lo.plugins.head? = some p)
    (hH2 : isValidPlugin d.files gm = true →
      isActiveIn lo.plugins gm = true)
    (hI : gid = GameId.tes5 → updateExists d.files = true →
      isActiveIn lo.plugins "Update.esm" = true)
    (hJ2 : ∀ n ∈ namesOf lo.plugins, isCommentLine n = false) :
    loadFresh ⟨gid, Method.textfile, gm⟩ (tfDisk d lo) = lo.plugins := by
  have hseed1 : seedNames ⟨gid, Method.textfile, gm⟩ (tfDisk d lo) =
      (namesOf lo.plugins).filter (fun l => !(isCommentLine l)) := rfl
  have hseed2 : (namesOf lo.plugins).filter (fun l => !(isCommentLine l)) =
      namesOf lo.plugins := by
    rw [List.filter_eq_self]
    intro n hn
    rw [hJ2 n hn]
    rfl
  have hseed : dedupeFold ((seedNames ⟨gid, Method.textfile, gm⟩
      (tfDisk d lo)).filter
      (fun n => isValidPlugin (tfDisk d lo).files n)) = namesOf lo.plugins := by
    rw [hseed1, hseed2]
    have hfil : (namesOf lo.plugins).filter
        (fun n => isValidPlugin (tfDisk d lo).files n) = namesOf lo.plugins :=
      filter_isValid_namesOf hA hB
    rw [hfil]
    exact dedupeFold_eq_self hD
  have hfaEq : fileActiveNames ⟨gid, Method.textfile, gm⟩ (tfDisk d lo) =
      activeNamesOf lo.plugins := by
    show ((activeNamesOf lo.plugins).map (fun n => (n, true))).map
      (fun x => x.1) = activeNamesOf lo.plugins
    rw [List.map_map]
    exact List.map_id _
  have hfact1 : ∀ n ∈ fileActiveNames ⟨gid, Method.textfile, gm⟩ (tfDisk d lo),
      ∃ q ∈ lo.plugins, q.active = true ∧ nameEq n q.name = true := by
    rw [hfaEq]
    exact fact1_activeNames lo.plugins
  have hfact2 : ∀ p ∈ lo.plugins, p.active = true →
      p.name ∈ fileActiveNames ⟨gid, Method.textfile, gm⟩ (tfDisk d lo) ∨
        ∃ m2 ∈ forcedActive ⟨gid, Method.textfile, gm⟩ (tfDisk d lo).files,
          nameEq m2 p.name = true := by
    intro p hp hact
    left
    rw [hfaEq]
    exact mem_activeNamesOf hp hact
  have hforced : ∀ m2 ∈ forcedActive ⟨gid, Method.textfile, gm⟩
      (tfDisk d lo).files, ∀ p ∈ lo.plugins,
      nameEq m2 p.name = true → p.active = true :=
    forced_implies_active hA hB hD (fun _ => hH2) hI
  exact loadFresh_restore hA hB hC hD hE hcap (fun _ => hG2) hseed hfact1
    hfact2 hforced

lemma cons_filter_not_gm {ps : List Plugin} {gm : String} {p0 : Plugin}
    (hD : distinctFold (namesOf ps) = true)
    (hp0n : nameEq p0.name gm = true)
    (hname0 : p0.name = gm)
    (hhead : ps.head? = some p0) :
    gm :: namesOf (ps.filter (fun p => !(nameEq p.name gm))) = namesOf ps := by
  cases ps with
  | nil => simp at hhead
  | cons q rest =>
    have hq : q = p0 := by simpa using hhead
    subst hq
    have hD2 : distinctFold (q.name :: namesOf rest) = true := hD
    rw [distinctFold_cons_iff] at hD2
    obtain ⟨hno, _⟩ := hD2
    have hcond : (!(nameEq q.name gm)) = false := by rw [hp0n]; rfl
    have hfil1 : List.filter (fun p => !(nameEq p.name gm)) (q :: rest) =
        List.filter (fun p => !(nameEq p.name gm)) rest := by
      rw [List.filter_cons, hcond]
      simp
    have hfil2 : List.filter (fun p => !(nameEq p.name gm)) rest = rest := by
      rw [List.filter_eq_self]
      intro p hp
      have hmem : p.name ∈ namesOf rest := List.mem_map_of_mem _ hp
      have hne : nameEq p.name q.name = false := hno p.name hmem
      show (!(nameEq p.name gm)) = true
      rw [← hname0, hne]
      rfl
    show gm :: namesOf (List.filter (fun p => !(nameEq p.name gm))
      (q :: rest)) = _
    rw [hfil1, hfil2, ← hname0]
    rfl

lemma ast_finish (gid : GameId) (gm : String) (d : Disk) (lo : LoadOrder)
    (hA : distinctFold (d.files.map (fun g => g.name)) = true)
    (hB : ∀ q ∈ lo.plugins, ∃ f ∈ d.files, f.name = q.name ∧ f.valid = true ∧
      f.isMaster = q.isMaster)
    (hC : ∀ f ∈ d.files, f.valid = true → containsName lo.plugins f.name = true)
    (hD : distinctFold (namesOf lo.plugins) = true)
    (hE : partitionOk lo.plugins = true)
    (hcap : countActive lo.plugins ≤ maxActive)
    (hG2 : ∀ p ∈ lo.plugins, nameEq p.name gm = true →
      lo.plugins.head? = some p)
    (hH2 : isValidPlugin d.files gm = true →
      isActiveIn lo.plugins gm = true)
    (hI : gid = GameId.tes5 → updateExists d.files = true →
      isActiveIn lo.plugins "Update.esm" = true)
    (hseed : dedupeFold ((seedNames ⟨gid, Method.asterisk, gm⟩
      (astDisk gm d lo)).filter
      (fun n => isValidPlugin (astDisk gm d lo).files n)) =
      namesOf lo.plugins) :
    loadFresh ⟨gid, Method.asterisk, gm⟩ (astDisk gm d lo) = lo.plugins := by
  have hfa : fileActiveNames ⟨gid, Method.asterisk, gm⟩ (astDisk gm d lo) =
      namesOf ((lo.plugins.filter (fun p => !(nameEq p.name gm))).filter
        (fun p => p.active)) := by
    show ((((lo.plugins.filter (fun p => !(nameEq p.name gm))).map
      (fun p => (p.name, p.active))).filter (fun x => x.2)).map
      (fun x => x.1)) = _
    rw [List.filter_map, List.map_map]
    rfl
  have hfact1 : ∀ n ∈ fileActiveNames ⟨gid, Method.asterisk, gm⟩
      (astDisk gm d lo), ∃ q ∈ lo.plugins, q.active = true ∧
      nameEq n q.name = true := by
    intro n hn
    rw [hfa] at hn
    obtain ⟨q, hq, rfl⟩ := List.mem_map.mp hn
    obtain ⟨hq1, hq2⟩ := List.mem_filter.mp hq
    exact ⟨q, List.mem_of_mem_filter hq1, hq2, nameEq_refl _⟩
  have hfact2 : ∀ p ∈ lo.plugins, p.active = true →
      p.name ∈ fileActiveNames ⟨gid, Method.asterisk, gm⟩ (astDisk gm d lo) ∨
        ∃ m2 ∈ forcedActive ⟨gid, Method.asterisk, gm⟩ (astDisk gm d lo).files,
          nameEq m2 p.name = true := by
    intro p hp hact
    by_cases hpg : nameEq p.name gm = true
    · right
      refine ⟨gm, ?_, by rw [nameEq_symm]; exact hpg⟩
      exact List.mem_append.mpr (Or.inl (List.mem_singleton.mpr rfl))
    · left
      rw [hfa]
      apply List.mem_map_of_mem
      have hne : nameEq p.name gm = false := by
        rw [Bool.not_eq_true] at hpg
        exact hpg
      refine List.mem_filter.mpr ⟨List.mem_filter.mpr ⟨hp, ?_⟩, hact⟩
      show (!(nameEq p.name gm)) = true
      rw [hne]
      rfl
  have hforced : ∀ m2 ∈ forcedActive ⟨gid, Method.asterisk, gm⟩
      (astDisk gm d lo).files, ∀ p ∈ lo.plugins,
      nameEq m2 p.name = true → p.active = true :=
    forced_implies_active hA hB hD (fun _ => hH2) hI
  exact loadFresh_restore hA hB hC hD hE hcap (fun _ => hG2) hseed hfact1
    hfact2 hforced

lemma ast_case_core (gid : GameId) (gm : String) (d : Disk) (lo : LoadOrder)
    (hA : distinctFold (d.files.map (fun g => g.name)) = true)
    (hB : ∀ q ∈ lo.plugins, ∃ f ∈ d.files, f.name = q.name ∧ f.valid = true ∧
      f.isMaster = q.isMaster)
    (hC : ∀ f ∈ d.files, f.valid = true → containsName lo.plugins f.name = true)
    (hD : distinctFold (namesOf lo.plugins) = true)
    (hE : partitionOk lo.plugins = true)
    (hcap : countActive lo.plugins ≤ maxActive)
    (hG2 : ∀ p ∈ lo.plugins, nameEq p.name gm = true →
      lo.plugins.head? = some p)
    (hH2 : isValidPlugin d.files gm = true →
      isActiveIn lo.plugins gm = true)
    (hI : gid = GameId.tes5 → updateExists d.files = true →
      isActiveIn lo.plugins "Update.esm" = true)
    (hK2 : ∀ p ∈ lo.plugins, nameEq p.name gm = true → p.name = gm) :
    loadFresh ⟨gid, Method.asterisk, gm⟩ (astDisk gm d lo) = lo.plugins := by
  have hseed1 : seedNames ⟨gid, Method.asterisk, gm⟩ (astDisk gm d lo) =
      gm :: namesOf (lo.plugins.filter (fun p => !(nameEq p.name gm))) := by
    show gm :: ((lo.plugins.filter (fun p => !(nameEq p.name gm))).map
      (fun p => (p.name, p.active))).map (fun x => x.1) = _
    rw [List.map_map]
    rfl
  have hvalrest : ∀ n ∈ namesOf (lo.plugins.filter
      (fun p => !(nameEq p.name gm))),
      isValidPlugin (astDisk gm d lo).files n = true := by
    intro n hn
    obtain ⟨p, hp, rfl⟩ := List.mem_map.mp hn
    have hp2 := List.mem_of_mem_filter hp
    exact isValidPlugin_of_hB hA hB hp2
  by_cases hgm : containsName lo.plugins gm = true
  · obtain ⟨p0, hp0, hp0n⟩ := containsName_iff.mp hgm
    have hname0 : p0.name = gm := hK2 p0 hp0 hp0n
    have hhead := hG2 p0 hp0 hp0n
    have hconsEq := cons_filter_not_gm hD hp0n hname0 hhead
    have hvgm : isValidPlugin (astDisk gm d lo).files gm = true := by
      show isValidPlugin d.files gm = true
      rw [isValidPlugin_congr d.files
        (show nameEq gm p0.name = true by rw [nameEq_symm]; exact hp0n)]
      exact isValidPlugin_of_hB hA hB hp0
    apply ast_finish gid gm d lo hA hB hC hD hE hcap hG2 hH2 hI
    rw [hseed1, List.filter_cons, if_pos hvgm,
      List.filter_eq_self.mpr hvalrest, hconsEq]
    exact dedupeFold_eq_self hD
  · have hgmf : containsName lo.plugins gm = false := by
      rw [Bool.not_eq_true] at hgm
      exact hgm
    have hvgm : isValidPlugin (astDisk gm d lo).files gm = false := by
      show isValidPlugin d.files gm = false
      by_cases hv : isValidPlugin d.files gm = true
      · exfalso
        unfold isValidPlugin at hv
        cases hl : lookupFile d.files gm with
        | none =>
          rw [hl] at hv
          exact Bool.noConfusion hv
        | some f =>
          rw [hl] at hv
          have hv2 : f.valid = true := hv
          have hfm : f ∈ d.files := List.mem_of_find?_eq_some hl
          have hfn : nameEq f.name gm = true := by
            simpa using List.find?_some hl
          have hcont := hC f hfm hv2
          rw [containsName_congr lo.plugins hfn, hgmf] at hcont
          exact Bool.noConfusion hcont
      · rw [Bool.not_eq_true] at hv
        exact hv
    have hfilps : lo.plugins.filter (fun p => !(nameEq p.name gm)) =
        lo.plugins := by
      rw [List.filter_eq_self]
      intro p hp
      have hne : nameEq p.name gm = false := by
        by_cases hq : nameEq p.name gm = true
        · exfalso
          have hc2 := containsName_iff.mpr ⟨p, hp, hq⟩
          rw [hgmf] at hc2
          exact Bool.noConfusion hc2
        · rw [Bool.not_eq_true] at hq
          exact hq
      show (!(nameEq p.name gm)) = true
      rw [hne]
      rfl
    have hvalall : ∀ n ∈ namesOf lo.plugins,
        isValidPlugin (astDisk gm d lo).files n = true := by
      intro n hn
      obtain ⟨p, hp, rfl⟩ := List.mem_map.mp hn
      exact isValidPlugin_of_hB hA hB hp
    apply ast_finish gid gm d lo hA hB hC hD hE hcap hG2 hH2 hI
    rw [hseed1, hfilps, List.filter_cons, if_neg (by simp [hvgm]),
      List.filter_eq_self.mpr hvalall]
    exact dedupeFold_eq_self hD

/-- C1: for each of the four persistence methods, save() followed by the
fresh read-back load() performs yields an in-memory state equal, as a
sequence of (filename, active-flag) pairs, to the state that was saved. The
hypotheses are the well-formedness invariants of a saveable state: the
plugins directory lists each name once (case-insensitively) and agrees with
the in-memory entries on existence, validity and master classification
(hA, hB), every loadable file is in the order (hC), the order has no
case-insensitive duplicates (hD), masters precede non-masters (hE), at most
255 entries are active (hcap), under Textfile/Asterisk the game master sits
at index 0 when present (hG) and is active when loadable (hH), Update.esm is
active for TES5 when it exists (hI), Textfile names are not comment lines
(hJ), and under Asterisk the game master entry carries its canonical
spelling (hK). -/
theorem c1_roundtrip (gs : GameProfile) (d : Disk) (lo : LoadOrder)
    (hA : distinctFold (d.files.map (fun g => g.name)) = true)
    (hB : ∀ q ∈ lo.plugins, ∃ f ∈ d.files, f.name = q.name ∧ f.valid = true ∧
      f.isMaster = q.isMaster)
    (hC : ∀ f ∈ d.files, f.valid = true → containsName lo.plugins f.name = true)
    (hD : distinctFold (namesOf lo.plugins) = true)
    (hE : partitionOk lo.plugins = true)
    (hcap : countActive lo.plugins ≤ maxActive)
    (hG : gs.method.isTextBased = true → ∀ p ∈ lo.plugins,
      nameEq p.name gs.gameMasterName = true → lo.plugins.head? = some p)
    (hH : gs.method.isTextBased = true →
      isValidPlugin d.files gs.gameMasterName = true →
      isActiveIn lo.plugins gs.gameMasterName = true)
    (hI : gs.gameId = GameId.tes5 → updateExists d.files = true →
      isActiveIn lo.plugins "Update.esm" = true)
    (hJ : gs.method = Method.textfile → ∀ n ∈ namesOf lo.plugins,
      isCommentLine n = false)
    (hK : gs.method = Method.asterisk → ∀ p ∈ lo.plugins,
      nameEq p.name gs.gameMasterName = true → p.name = gs.gameMasterName) :
    pairsOf (loadFresh gs ((save gs d lo).1)) = pairsOf lo.plugins := by
  suffices h : loadFresh gs ((save gs d lo).1) = lo.plugins by rw [h]
  obtain ⟨gid, m, gm⟩ := gs
  cases m with
  | timestamp =>
    show loadFresh ⟨gid, Method.timestamp, gm⟩ (tsDisk d lo) = lo.plugins
    exact ts_case_core gid Method.timestamp gm d lo rfl hA hB hC hD hE hcap
      hI rfl rfl
  | morrowind =>
    show loadFresh ⟨gid, Method.morrowind, gm⟩ (tsDisk d lo) = lo.plugins
    exact ts_case_core gid Method.morrowind gm d lo rfl hA hB hC hD hE hcap
      hI rfl rfl
  | textfile =>
    show loadFresh ⟨gid, Method.textfile, gm⟩ (tfDisk d lo) = lo.plugins
    exact tf_case_core gid gm d lo hA hB hC hD hE hcap (hG rfl) (hH rfl) hI
      (hJ rfl)
  | asterisk =>
    show loadFresh ⟨gid, Method.asterisk, gm⟩ (astDisk gm d lo) = lo.plugins
    exact ast_case_core gid gm d lo hA hB hC hD hE hcap (hG rfl) (hH rfl) hI
      (hK rfl)

/-- Witness for C1: the Textfile round trip on the demo universe restores the
saved four-plugin state exactly. -/
theorem c1_roundtrip_witness :
    pairsOf (loadFresh tfProfile ((save tfProfile demoDisk c1lo).1)) =
      pairsOf c1lo.plugins :=
  c1_roundtrip tfProfile demoDisk c1lo (by decide) (by decide) (by decide)
    (by decide) (by decide) (by decide) (by decide) (by decide) (by decide)
    (by decide) (by decide)

/-- C10: activating a plugin already in the load order — under any casing of
its name — changes only that plugin's flag: the filename sequence is
untouched, the plugin ends active, and every differently-folded name keeps
its activity. -/
theorem c10_activate_frame (gs : GameProfile) (files : List DiskFile)
    (lo : LoadOrder) (n : String) (lo2 : LoadOrder)
    (hc : containsName lo.plugins n = true)
    (h : activate gs files lo n = .ok lo2) :
    namesOf lo2.plugins = namesOf lo.plugins ∧
      isActiveIn lo2.plugins n = true ∧
      ∀ m, nameEq m n = false → isActiveIn lo2.plugins m = isActiveIn lo.plugins m := by
  unfold activate at h
  rw [if_pos hc] at h
  by_cases ha : isActiveIn lo.plugins n = true
  · rw [if_pos ha] at h
    rw [Except.ok.injEq] at h
    subst h
    exact ⟨rfl, ha, fun m _ => rfl⟩
  · rw [if_neg ha] at h
    split at h
    · exact Except.noConfusion h
    · rw [Except.ok.injEq] at h
      subst h
      refine ⟨namesOf_setFlag _ _ _, ?_, ?_⟩
      · rw [show ({ lo with plugins := setFlag lo.plugins n true } : LoadOrder).plugins =
          setFlag lo.plugins n true from rfl, isActiveIn_setFlag_true]
        exact hc
      · intro m hm
        exact isActiveIn_setFlag_other hm

/-- Witness for C10: activating "a.ESM" (a different casing of the present
A.esm) flips exactly that entry in a two-plugin Timestamp state. -/
theorem c10_activate_frame_witness :
    namesOf (LoadOrder.mk 0 [⟨"A.esm", true, true⟩, ⟨"B.esp", false, false⟩]).plugins =
        namesOf (LoadOrder.mk 0 [⟨"A.esm", false, true⟩, ⟨"B.esp", false, false⟩]).plugins ∧
      isActiveIn (LoadOrder.mk 0
        [⟨"A.esm", true, true⟩, ⟨"B.esp", false, false⟩]).plugins "a.ESM" = true ∧
      ∀ m, nameEq m "a.ESM" = false →
        isActiveIn (LoadOrder.mk 0
            [⟨"A.esm", true, true⟩, ⟨"B.esp", false, false⟩]).plugins m =
          isActiveIn (LoadOrder.mk 0
            [⟨"A.esm", false, true⟩, ⟨"B.esp", false, false⟩]).plugins m :=
  c10_activate_frame tsProfile demoFiles
    (LoadOrder.mk 0 [⟨"A.esm", false, true⟩, ⟨"B.esp", false, false⟩]) "a.ESM"
    (LoadOrder.mk 0 [⟨"A.esm", true, true⟩, ⟨"B.esp", false, false⟩])
    (by decide) (by decide)

/-! The cap-scenario universe behind the C4 counterexample: 255 loadable
non-master dummies, all active, the game master on disk but absent from the
order. -/

end LibLoadOrder
